import Mathlib

/-!
# A two-dimensional histogram filter (`localizer.cpp`)

A shallow embedding of `initialize_beliefs`, `sense` and `move`, and the
properties of these three functions.

Conventions of the embedding.

* A `vector<vector<T>>` is a `List (List T)`; colours are `Char`.
* `float` values are rationals (`ℚ`). `initialize_beliefs`, `sense` and `move`
  compute on them exactly: the statements about these three are statements of
  exact arithmetic. Lean's `x / 0 = 0` stands in for the non-finite value that
  IEEE division by zero produces; no theorem relies on such a quotient.
* `senseFloat` is `sense` with the two products of its loop (lines 113 and 117)
  rounded as the `float` multiplication rounds them: `toFloat` is rounding to
  IEEE 754 binary32, to nearest with ties to even, subnormal numbers included.
  It decides the properties of `sense` that are not stated for exact
  arithmetic. The modelled `normalize` divides exactly in both. A product
  beyond the finite range is reported as `Fault.notFinite`; what the code does
  with an infinity is not modelled.
* `int` values are integers reduced to the 32-bit two's complement range by
  `wrapInt` after every conversion from a size and after every `+` and `*`;
  `%` on `int` is the truncating remainder `Int.tmod`.
* Indexing a vector outside its bounds is undefined behaviour in C++; the
  embedding stops there with `Fault.outOfRange`, which stands for the undefined
  behaviour and not for a failure that the code reports: what a compiled run
  does from there on is not modelled.
* A loop `for (int i = 0; i < n; i++)` that pushes one value per round is a
  `List.map` over `List.range n`, or `pushEach` when a round can fault; a loop
  that updates a grid in place is `loopM`. The counter takes every value below
  its bound: the increment of a counter is not an `int` operation that the
  embedding wraps.
* `normalize` and `blur` are defined in `helpers.cpp`, outside `localizer.cpp`;
  they are modelled from the specification (section 4.4).
-/

namespace Localizer

/-- Ways in which a run of the embedded code ends without a result. -/
inductive Fault where
  /-- A vector was indexed outside its bounds (undefined behaviour). -/
  | outOfRange
  /-- Normalization was asked to divide by a zero sum (spec 4.4). -/
  | degenerateDistribution
  /-- A `float` product lies beyond the finite range: the code holds an infinity. -/
  | notFinite
  deriving DecidableEq, Repr

/-- Outcomes of a run can be compared by evaluation. -/
instance instDecidableEqOutcome {α : Type} [DecidableEq α] : DecidableEq (Except Fault α)
  | .ok a, .ok b =>
    if h : a = b then isTrue (by rw [h]) else isFalse (fun e => h (Except.ok.inj e))
  | .error a, .error b =>
    if h : a = b then isTrue (by rw [h]) else isFalse (fun e => h (Except.error.inj e))
  | .ok _, .error _ => isFalse (fun e => Except.noConfusion e)
  | .error _, .ok _ => isFalse (fun e => Except.noConfusion e)

/-- The robot's world: rows of colour labels. -/
abbrev ColorGrid := List (List Char)

/-- The robot's beliefs: rows of cell values. -/
abbrev BeliefGrid := List (List ℚ)

/-- Value of an integer once stored in a 32-bit two's complement `int`. -/
def wrapInt (z : Int) : Int := (z + 2147483648) % 4294967296 - 2147483648

/-- Sum of all the cells of a grid. -/
def gridSum (g : BeliefGrid) : ℚ := (g.map List.sum).sum

/-- Every row of `g` has `W` entries and there are `H` rows. -/
def HasShape {α : Type} (g : List (List α)) (H W : Nat) : Prop :=
  g.length = H ∧ ∀ r ∈ g, r.length = W

/-- Reading `g[i][j]`; `none` when either index is out of bounds. -/
def readCell {α : Type} (g : List (List α)) (i j : Nat) : Option α :=
  match g[i]? with
  | none => none
  | some r => r[j]?

/-- Embedding of `initialize_beliefs` (localizer.cpp, lines 39-61). -/
def initialize_beliefs (grid : ColorGrid) : Except Fault BeliefGrid :=
  match grid with
  | [] => .error .outOfRange
  | row0 :: _ =>
    let height : Int := wrapInt grid.length
    let width : Int := wrapInt row0.length
    let area : Int := wrapInt (height * width)
    let belief_per_cell : ℚ := 1 / (area : ℚ)
    .ok ((List.range height.toNat).map fun _ =>
          (List.range width.toNat).map fun _ => belief_per_cell)

/-- Modelled from the spec: `normalize` of `helpers.cpp`, a file included by
`localizer.cpp` whose text is missing. Spec 4.4: "divides every cell by the sum of all cells; returns a new
grid summing to 1.0. Fails with DegenerateDistribution if sum is zero". In
exact arithmetic the tolerance around zero that the spec allows is zero. -/
def normalize (grid : BeliefGrid) : Except Fault BeliefGrid :=
  let total : ℚ := gridSum grid
  if total = 0 then .error .degenerateDistribution
  else .ok (grid.map fun r => r.map fun x => x / total)

/-- Value of cell `(i, j)`, zero outside the grid. -/
def cellAt (g : BeliefGrid) (i j : Nat) : ℚ := ((g[i]?.getD [])[j]?).getD 0

/-- Modelled from the spec: the neighbour-weighting formula of Blur (spec 4.4),
"each cell's new value = (1−coefficient)·old[cell] +
(coefficient/4)·sum(old[four toroidal neighbors])", the neighbours being up,
down, left and right with wraparound. -/
def blurCell (grid : BeliefGrid) (coefficient : ℚ) (H W i j : Nat) : ℚ :=
  (1 - coefficient) * cellAt grid i j +
    coefficient / 4 *
      (cellAt grid ((i + H - 1) % H) j + cellAt grid ((i + 1) % H) j +
        cellAt grid i ((j + W - 1) % W) + cellAt grid i ((j + 1) % W))

/-- Modelled from the spec: `blur` of `helpers.cpp`, a file included by
`localizer.cpp` whose text is missing. Spec 4.4: every cell is replaced by the neighbour-weighting formula
and the "result is renormalized via Normalize". -/
def blur (grid : BeliefGrid) (coefficient : ℚ) : Except Fault BeliefGrid :=
  let H := grid.length
  normalize ((List.range H).map fun i =>
    let W := (grid[i]?.getD []).length
    (List.range W).map fun j => blurCell grid coefficient H W i j)

/-- A loop that pushes one value per round and stops at the first fault. -/
def pushEach {α : Type} (f : Nat → Except Fault α) : List Nat → Except Fault (List α)
  | [] => .ok []
  | i :: rest =>
    match f i with
    | .error e => .error e
    | .ok v =>
      match pushEach f rest with
      | .error e => .error e
      | .ok vs => .ok (v :: vs)

/-- A loop that updates a state once per round and stops at the first fault. -/
def loopM {β : Type} (body : β → Nat → Except Fault β) : List Nat → β → Except Fault β
  | [], s => .ok s
  | i :: rest, s =>
    match body s i with
    | .error e => .error e
    | .ok s1 => loopM body rest s1

/-- The hit-or-miss weighting of one cell (localizer.cpp, lines 111-118), the
product taken exactly. -/
def senseCell (color : Char) (grid : ColorGrid) (beliefs : BeliefGrid)
    (p_hit p_miss : ℚ) (row col : Nat) : Except Fault ℚ :=
  match readCell grid row col with
  | none => .error .outOfRange
  | some c =>
    match readCell beliefs row col with
    | none => .error .outOfRange
    | some b => .ok (if color = c then b * p_hit else b * p_miss)

/-- Embedding of `sense` (localizer.cpp, lines 98-124) in exact arithmetic.
The bounds of the two loops are `grid.size()` and `grid[0].size()`. -/
def sense (color : Char) (grid : ColorGrid) (beliefs : BeliefGrid)
    (p_hit p_miss : ℚ) : Except Fault BeliefGrid :=
  match pushEach (fun row =>
      pushEach (fun col => senseCell color grid beliefs p_hit p_miss row col)
        (List.range (grid.headD []).length))
      (List.range grid.length) with
  | .error e => .error e
  | .ok newBeliefs => normalize newBeliefs

/-- Nearest integer to `q`; a value half-way between two integers goes to the
even one. -/
def roundHalfEven (q : ℚ) : Int :=
  let f : Int := ⌊q⌋
  if q - f < 1 / 2 then f
  else if 1 / 2 < q - f then f + 1
  else if f % 2 = 0 then f else f + 1

/-- Value of the real number `x` once stored in a `float` (IEEE 754 binary32,
rounding to nearest, ties to even): `x` is rounded to a multiple of `2^e`,
where `e` is 23 below the binary exponent of `x` and never below -149, the
spacing of the subnormal numbers. The result is `none` when the rounded
magnitude reaches `2^128`, where the type holds an infinity. -/
def toFloat (x : ℚ) : Option ℚ :=
  if x = 0 then some 0
  else
    let e : Int := max (Int.log 2 |x|) (-126) - 23
    let y : ℚ := (roundHalfEven (x / (2 : ℚ) ^ e) : ℚ) * (2 : ℚ) ^ e
    if |y| < (2 : ℚ) ^ (128 : Nat) then some y else none

/-- The hit-or-miss weighting of one cell (localizer.cpp, lines 111-118) with
the product rounded as the `float` multiplication rounds it. -/
def senseCellFloat (color : Char) (grid : ColorGrid) (beliefs : BeliefGrid)
    (p_hit p_miss : ℚ) (row col : Nat) : Except Fault ℚ :=
  match readCell grid row col with
  | none => .error .outOfRange
  | some c =>
    match readCell beliefs row col with
    | none => .error .outOfRange
    | some b =>
      match toFloat (if color = c then b * p_hit else b * p_miss) with
      | none => .error .notFinite
      | some v => .ok v

/-- The two loops of `sense` (localizer.cpp, lines 107-121) in `float`
arithmetic: the grid `newBeliefs` that `sense` hands to `normalize`. -/
def weighFloat (color : Char) (grid : ColorGrid) (beliefs : BeliefGrid)
    (p_hit p_miss : ℚ) : Except Fault BeliefGrid :=
  pushEach (fun row =>
      pushEach (fun col => senseCellFloat color grid beliefs p_hit p_miss row col)
        (List.range (grid.headD []).length))
    (List.range grid.length)

/-- Embedding of `sense` (localizer.cpp, lines 98-124) with the products of
lines 113 and 117 in `float` arithmetic. -/
def senseFloat (color : Char) (grid : ColorGrid) (beliefs : BeliefGrid)
    (p_hit p_miss : ℚ) : Except Fault BeliefGrid :=
  match weighFloat color grid beliefs p_hit p_miss with
  | .error e => .error e
  | .ok newBeliefs => normalize newBeliefs

/-- The expression `((pos + d) % size + size) % size` on `int`
(localizer.cpp, lines 186-187). -/
def new_index (pos d size : Int) : Int :=
  Int.tmod (wrapInt (Int.tmod (wrapInt (pos + d)) size + size)) size

/-- The assignment `g[i][j] = v` for `int` indices `i`, `j`. An index outside
the vector, a negative one included, is undefined behaviour: the embedding
stops there with `outOfRange`. -/
def writeCell (g : BeliefGrid) (i j : Int) (v : ℚ) : Except Fault BeliefGrid :=
  if 0 ≤ i ∧ 0 ≤ j then
    match g[i.toNat]? with
    | none => .error .outOfRange
    | some r =>
      if j.toNat < r.length then .ok (g.set i.toNat (r.set j.toNat v))
      else .error .outOfRange
  else .error .outOfRange

/-- One round of the inner loop of `move` (localizer.cpp, lines 186-189). -/
def moveCell (dy dx height width : Int) (beliefs : BeliefGrid)
    (row : Nat) (newGrid : BeliefGrid) (col : Nat) : Except Fault BeliefGrid :=
  let new_row := new_index row dy height
  let new_col := new_index col dx width
  match readCell beliefs row col with
  | none => .error .outOfRange
  | some v => writeCell newGrid new_row new_col v

/-- The first stage of `move` (localizer.cpp, lines 169-191): a grid of zeros
of the given height and width, then every belief copied to its new cell, row
by row and column by column. -/
def shiftStage (dy dx height width : Int) (beliefs : BeliefGrid) : Except Fault BeliefGrid :=
  let zeros : BeliefGrid :=
    (List.range height.toNat).map fun _ => (List.range width.toNat).map fun _ => (0 : ℚ)
  loopM (fun newGrid row =>
      loopM (moveCell dy dx height width beliefs row) (List.range width.toNat) newGrid)
    (List.range height.toNat) zeros

/-- Embedding of `move` (localizer.cpp, lines 161-194): the sizes are read
into `int`s, the beliefs are shifted, and the shifted grid goes through `blur`. -/
def move (dy dx : Int) (beliefs : BeliefGrid) (blurring : ℚ) : Except Fault BeliefGrid :=
  match beliefs with
  | [] => .error .outOfRange
  | row0 :: _ =>
    let height : Int := wrapInt beliefs.length
    let width : Int := wrapInt row0.length
    (shiftStage dy dx height width beliefs).bind fun newGrid => blur newGrid blurring

/-- The grid with `H` rows and `W` columns whose cell `(i, j)` is `f i j`. -/
def gridOf (H W : Nat) (f : Nat → Nat → ℚ) : BeliefGrid :=
  (List.range H).map fun i => (List.range W).map fun j => f i j

/-- The weight `sense` gives to cell `(i, j)`: `p_hit` where the world carries
the observed colour, `p_miss` elsewhere. -/
def likelihood (color : Char) (grid : ColorGrid) (p_hit p_miss : ℚ) (i j : Nat) : ℚ :=
  if readCell grid i j = some color then p_hit else p_miss

/-- The sum of the weighted beliefs over an `H` x `W` grid. -/
def weightedSum (color : Char) (grid : ColorGrid) (beliefs : BeliefGrid)
    (p_hit p_miss : ℚ) (H W : Nat) : ℚ :=
  ∑ i in Finset.range H, ∑ j in Finset.range W,
    cellAt beliefs i j * likelihood color grid p_hit p_miss i j

/-- No `int` operation of `new_index` overflows for a displacement `d` on an
axis of `n` positions: `n ≤ 2^30` and `-2^31 ≤ d`, `d + n ≤ 2^31`. -/
def ShiftFits (d : Int) (n : Nat) : Prop :=
  n ≤ 1073741824 ∧ -2147483648 ≤ d ∧ d + (n : Int) ≤ 2147483648

/-- The displacement `d` reduced to `[0, n)` by the never-negative modulo. -/
def shiftBy (d : Int) (n : Nat) : Nat := (d % (n : Int)).toNat

/-- The grid `g` is `beliefs` moved `a` rows down and `b` columns right on the
`H` x `W` torus. -/
def IsShift (g beliefs : BeliefGrid) (H W a b : Nat) : Prop :=
  HasShape g H W ∧
    ∀ r c, r < H → c < W → cellAt g ((r + a) % H) ((c + b) % W) = cellAt beliefs r c

/-- The belief grid has a cell at every position of an `H` x `W` world; it may
have more rows or longer rows. -/
def Covers (beliefs : BeliefGrid) (H W : Nat) : Prop :=
  ∀ r c, r < H → c < W → ∃ v, readCell beliefs r c = some v

/-- All cells of a grid are non-negative. -/
def NonNeg (g : BeliefGrid) : Prop := ∀ r ∈ g, ∀ x ∈ r, 0 ≤ x

/-! ## Arithmetic of `int` and of list-built grids -/

theorem wrapInt_of_fits (z : Int) (h1 : -2147483648 ≤ z) (h2 : z < 2147483648) :
    wrapInt z = z := by
  unfold wrapInt; omega

theorem map_range_const {α : Type} (n : Nat) (c : α) :
    ((List.range n).map fun _ => c) = List.replicate n c := by
  simp [List.map_const']

theorem gridSum_replicate (H W : Nat) (c : ℚ) :
    gridSum (List.replicate H (List.replicate W c)) = (H : ℚ) * ((W : ℚ) * c) := by
  simp [gridSum, List.sum_replicate]

/-! ## `initialize_beliefs` -/

theorem initialize_beliefs_cons (row0 : List Char) (rest : ColorGrid) :
    initialize_beliefs (row0 :: rest)
      = .ok (List.replicate (wrapInt ((rest.length + 1 : Nat) : Int)).toNat
          (List.replicate (wrapInt (row0.length : Int)).toNat
            (1 / ((wrapInt (wrapInt ((rest.length + 1 : Nat) : Int)
              * wrapInt (row0.length : Int)) : Int) : ℚ)))) := by
  simp only [initialize_beliefs, List.length_cons, map_range_const]

theorem initialize_beliefs_eq (grid : ColorGrid) (H W : Nat) (hH : 1 ≤ H) (hW : 1 ≤ W)
    (hshape : HasShape grid H W) (hfit : H * W < 2147483648) :
    initialize_beliefs grid
      = .ok (List.replicate H (List.replicate W (1 / ((H : ℚ) * (W : ℚ))))) := by
  obtain ⟨hlen, hrows⟩ := hshape
  cases grid with
  | nil => simp at hlen; omega
  | cons row0 rest =>
    have hw : row0.length = W := hrows row0 (by simp)
    have hH1 : (H : Int) < 2147483648 := by
      have : H ≤ H * W := Nat.le_mul_of_pos_right H hW
      omega
    have hW1 : (W : Int) < 2147483648 := by
      have : W ≤ H * W := Nat.le_mul_of_pos_left W hH
      omega
    have hA : ((H : Int) * (W : Int)) < 2147483648 := by exact_mod_cast hfit
    have hA0 : (0 : Int) ≤ (H : Int) * (W : Int) := by positivity
    simp only [initialize_beliefs, hlen, hw]
    rw [wrapInt_of_fits H (by omega) hH1, wrapInt_of_fits W (by omega) hW1,
      wrapInt_of_fits _ (by omega) hA]
    simp [map_range_const]

/-! ## Tables, shapes and sums -/

theorem pushEach_eq_map {α : Type} (f : Nat → Except Fault α) (g : Nat → α) (l : List Nat)
    (h : ∀ i ∈ l, f i = .ok (g i)) : pushEach f l = .ok (l.map g) := by
  induction l with
  | nil => rfl
  | cons i rest ih =>
    have h1 : f i = .ok (g i) := h i (by simp)
    have h2 : pushEach f rest = .ok (rest.map g) := ih fun k hk => h k (by simp [hk])
    simp [pushEach, h1, h2]

theorem readCell_of_shape {α : Type} (g : List (List α)) (H W i j : Nat)
    (hs : HasShape g H W) (hi : i < H) (hj : j < W) : ∃ v, readCell g i j = some v := by
  obtain ⟨hlen, hrows⟩ := hs
  have hi1 : i < g.length := by omega
  have hr : (g[i]).length = W := hrows _ (List.getElem_mem ..)
  have hj1 : j < (g[i]).length := by omega
  exact ⟨(g[i])[j], by simp [readCell, List.getElem?_eq_getElem hi1, List.getElem?_eq_getElem hj1]⟩

theorem cellAt_of_readCell (g : BeliefGrid) (i j : Nat) (v : ℚ)
    (h : readCell g i j = some v) : cellAt g i j = v := by
  unfold readCell at h
  unfold cellAt
  cases hg : g[i]? with
  | none => simp [hg] at h
  | some r => simp [hg] at h; simp [h]

theorem readCell_eq_cellAt (g : BeliefGrid) (H W i j : Nat)
    (hs : HasShape g H W) (hi : i < H) (hj : j < W) : readCell g i j = some (cellAt g i j) := by
  obtain ⟨v, hv⟩ := readCell_of_shape g H W i j hs hi hj
  rw [hv, cellAt_of_readCell g i j v hv]

theorem hasShape_gridOf (H W : Nat) (f : Nat → Nat → ℚ) : HasShape (gridOf H W f) H W := by
  refine ⟨by simp [gridOf], ?_⟩
  intro r hr
  simp only [gridOf, List.mem_map] at hr
  obtain ⟨i, _, rfl⟩ := hr
  simp

theorem readCell_gridOf (H W : Nat) (f : Nat → Nat → ℚ) (i j : Nat) (hi : i < H) (hj : j < W) :
    readCell (gridOf H W f) i j = some (f i j) := by
  simp [readCell, gridOf, List.getElem?_eq_getElem, hi, hj]

theorem cellAt_gridOf (H W : Nat) (f : Nat → Nat → ℚ) (i j : Nat) (hi : i < H) (hj : j < W) :
    cellAt (gridOf H W f) i j = f i j :=
  cellAt_of_readCell _ _ _ _ (readCell_gridOf H W f i j hi hj)

theorem sum_map_range (n : Nat) (f : Nat → ℚ) :
    ((List.range n).map f).sum = ∑ i in Finset.range n, f i := by
  induction n with
  | zero => simp
  | succ n ih => simp [List.range_succ, Finset.sum_range_succ, ih]

theorem gridSum_gridOf (H W : Nat) (f : Nat → Nat → ℚ) :
    gridSum (gridOf H W f) = ∑ i in Finset.range H, ∑ j in Finset.range W, f i j := by
  unfold gridSum gridOf
  rw [List.map_map, sum_map_range]
  apply Finset.sum_congr rfl
  intro i _
  simp [sum_map_range]

theorem gridOf_congr (H W : Nat) (f g : Nat → Nat → ℚ)
    (h : ∀ i, i < H → ∀ j, j < W → f i j = g i j) : gridOf H W f = gridOf H W g := by
  unfold gridOf
  apply List.map_congr_left
  intro i hi
  apply List.map_congr_left
  intro j hj
  exact h i (List.mem_range.mp hi) j (List.mem_range.mp hj)

theorem map_div_gridOf (H W : Nat) (f : Nat → Nat → ℚ) (t : ℚ) :
    ((gridOf H W f).map fun r => r.map fun x => x / t) = gridOf H W fun i j => f i j / t := by
  simp [gridOf, List.map_map, Function.comp_def]

theorem normalize_gridOf (H W : Nat) (f : Nat → Nat → ℚ) :
    normalize (gridOf H W f)
      = if (∑ i in Finset.range H, ∑ j in Finset.range W, f i j) = 0
        then .error .degenerateDistribution
        else .ok (gridOf H W fun i j =>
          f i j / ∑ i in Finset.range H, ∑ j in Finset.range W, f i j) := by
  unfold normalize
  simp only [gridSum_gridOf, map_div_gridOf]

/-- A grid of a given shape is the table of its own cells. -/
theorem eq_gridOf_of_shape (g : BeliefGrid) (H W : Nat) (hs : HasShape g H W) :
    g = gridOf H W (cellAt g) := by
  obtain ⟨hlen, hrows⟩ := hs
  apply List.ext_getElem
  · simp [gridOf, hlen]
  · intro i h1 h2
    have hr : (g[i]).length = W := hrows _ (List.getElem_mem ..)
    apply List.ext_getElem
    · simp [gridOf, hr]
    · intro j h3 h4
      simp [gridOf, cellAt, List.getElem?_eq_getElem h1, List.getElem?_eq_getElem h3]

/-! ## `sense` -/

theorem senseCell_eq (color : Char) (grid : ColorGrid) (beliefs : BeliefGrid) (p_hit p_miss : ℚ)
    (H W row col : Nat) (hg : HasShape grid H W) (hb : HasShape beliefs H W)
    (hr : row < H) (hc : col < W) :
    senseCell color grid beliefs p_hit p_miss row col
      = .ok (cellAt beliefs row col * likelihood color grid p_hit p_miss row col) := by
  obtain ⟨c, hc1⟩ := readCell_of_shape grid H W row col hg hr hc
  have hb1 := readCell_eq_cellAt beliefs H W row col hb hr hc
  unfold senseCell likelihood
  rw [hc1, hb1]
  by_cases h : color = c
  · simp [h]
  · have h2 : ¬ (c = color) := fun e => h e.symm
    simp [h, h2]

theorem headD_length_of_shape {α : Type} (g : List (List α)) (H W : Nat)
    (hs : HasShape g H W) (hH : 0 < H) : (g.headD []).length = W := by
  obtain ⟨hlen, hrows⟩ := hs
  cases g with
  | nil => simp at hlen; omega
  | cons r rest => exact hrows r (by simp)

theorem sense_eq (color : Char) (grid : ColorGrid) (beliefs : BeliefGrid) (p_hit p_miss : ℚ)
    (H W : Nat) (hg : HasShape grid H W) (hb : HasShape beliefs H W) :
    sense color grid beliefs p_hit p_miss
      = normalize (gridOf H W fun i j =>
          cellAt beliefs i j * likelihood color grid p_hit p_miss i j) := by
  have hpush : pushEach (fun row =>
      pushEach (fun col => senseCell color grid beliefs p_hit p_miss row col)
        (List.range (grid.headD []).length)) (List.range grid.length)
      = .ok (gridOf H W fun i j =>
          cellAt beliefs i j * likelihood color grid p_hit p_miss i j) := by
    rw [hg.1]
    unfold gridOf
    apply pushEach_eq_map
    intro row hrow
    have hr : row < H := List.mem_range.mp hrow
    rw [headD_length_of_shape grid H W hg (by omega)]
    apply pushEach_eq_map
    intro col hcol
    exact senseCell_eq color grid beliefs p_hit p_miss H W row col hg hb hr
      (List.mem_range.mp hcol)
  unfold sense
  rw [hpush]

theorem sense_eq_ok (color : Char) (grid : ColorGrid) (beliefs : BeliefGrid) (p_hit p_miss : ℚ)
    (H W : Nat) (hg : HasShape grid H W) (hb : HasShape beliefs H W)
    (hS : weightedSum color grid beliefs p_hit p_miss H W ≠ 0) :
    sense color grid beliefs p_hit p_miss
      = .ok (gridOf H W fun i j =>
          cellAt beliefs i j * likelihood color grid p_hit p_miss i j
            / weightedSum color grid beliefs p_hit p_miss H W) := by
  rw [sense_eq color grid beliefs p_hit p_miss H W hg hb, normalize_gridOf]
  unfold weightedSum at hS ⊢
  rw [if_neg hS]

theorem sense_eq_error (color : Char) (grid : ColorGrid) (beliefs : BeliefGrid) (p_hit p_miss : ℚ)
    (H W : Nat) (hg : HasShape grid H W) (hb : HasShape beliefs H W)
    (hS : weightedSum color grid beliefs p_hit p_miss H W = 0) :
    sense color grid beliefs p_hit p_miss = .error .degenerateDistribution := by
  rw [sense_eq color grid beliefs p_hit p_miss H W hg hb, normalize_gridOf]
  unfold weightedSum at hS
  rw [if_pos hS]

theorem gridSum_div (H W : Nat) (f : Nat → Nat → ℚ) (t : ℚ) :
    gridSum (gridOf H W fun i j => f i j / t)
      = (∑ i in Finset.range H, ∑ j in Finset.range W, f i j) / t := by
  rw [gridSum_gridOf, Finset.sum_div]
  apply Finset.sum_congr rfl
  intro i _
  rw [Finset.sum_div]

theorem likelihood_scale (color : Char) (grid : ColorGrid) (p_hit p_miss k : ℚ) (i j : Nat) :
    likelihood color grid (k * p_hit) (k * p_miss) i j
      = k * likelihood color grid p_hit p_miss i j := by
  unfold likelihood
  split <;> rfl

theorem weightedSum_scale (color : Char) (grid : ColorGrid) (beliefs : BeliefGrid)
    (p_hit p_miss k : ℚ) (H W : Nat) :
    weightedSum color grid beliefs (k * p_hit) (k * p_miss) H W
      = k * weightedSum color grid beliefs p_hit p_miss H W := by
  unfold weightedSum
  rw [Finset.mul_sum]
  apply Finset.sum_congr rfl
  intro i _
  rw [Finset.mul_sum]
  apply Finset.sum_congr rfl
  intro j _
  rw [likelihood_scale]; ring

theorem cellAt_nonneg (g : BeliefGrid) (h : NonNeg g) (i j : Nat) : 0 ≤ cellAt g i j := by
  unfold cellAt
  cases hi : g[i]? with
  | none => simp
  | some r =>
    cases hj : r[j]? with
    | none => simp [hj]
    | some x =>
      simp only [Option.getD_some, hj]
      exact h r (List.getElem?_mem hi) x (List.getElem?_mem hj)

theorem nonNeg_gridOf (H W : Nat) (f : Nat → Nat → ℚ)
    (h : ∀ i j, i < H → j < W → 0 ≤ f i j) : NonNeg (gridOf H W f) := by
  intro r hr x hx
  simp only [gridOf, List.mem_map, List.mem_range] at hr
  obtain ⟨i, hi, rfl⟩ := hr
  simp only [List.mem_map, List.mem_range] at hx
  obtain ⟨j, hj, rfl⟩ := hx
  exact h i j hi hj

theorem likelihood_nonneg (color : Char) (grid : ColorGrid) (p_hit p_miss : ℚ)
    (h1 : 0 ≤ p_hit) (h2 : 0 ≤ p_miss) (i j : Nat) :
    0 ≤ likelihood color grid p_hit p_miss i j := by
  unfold likelihood
  split <;> assumption

theorem weightedSum_nonneg (color : Char) (grid : ColorGrid) (beliefs : BeliefGrid)
    (p_hit p_miss : ℚ) (H W : Nat) (hb : NonNeg beliefs) (h1 : 0 ≤ p_hit) (h2 : 0 ≤ p_miss) :
    0 ≤ weightedSum color grid beliefs p_hit p_miss H W := by
  unfold weightedSum
  apply Finset.sum_nonneg
  intro i _
  apply Finset.sum_nonneg
  intro j _
  exact mul_nonneg (cellAt_nonneg beliefs hb i j) (likelihood_nonneg color grid _ _ h1 h2 i j)

theorem sense_nonneg (color : Char) (grid : ColorGrid) (beliefs : BeliefGrid)
    (p_hit p_miss : ℚ) (H W : Nat) (hg : HasShape grid H W) (hb : HasShape beliefs H W)
    (hn : NonNeg beliefs) (h1 : 0 ≤ p_hit) (h2 : 0 ≤ p_miss)
    (hS : weightedSum color grid beliefs p_hit p_miss H W ≠ 0) :
    ∃ out, sense color grid beliefs p_hit p_miss = .ok out ∧ NonNeg out := by
  refine ⟨_, sense_eq_ok color grid beliefs p_hit p_miss H W hg hb hS, ?_⟩
  apply nonNeg_gridOf
  intro i j _ _
  exact div_nonneg
    (mul_nonneg (cellAt_nonneg beliefs hn i j) (likelihood_nonneg color grid _ _ h1 h2 i j))
    (weightedSum_nonneg color grid beliefs p_hit p_miss H W hn h1 h2)

theorem weightedSum_single (color : Char) (grid : ColorGrid) (beliefs : BeliefGrid)
    (p_hit : ℚ) (H W r0 c0 : Nat) (hr0 : r0 < H) (hc0 : c0 < W)
    (hcol : readCell grid r0 c0 = some color)
    (huniq : ∀ i j, i < H → j < W → readCell grid i j = some color → i = r0 ∧ j = c0) :
    weightedSum color grid beliefs p_hit 0 H W = cellAt beliefs r0 c0 * p_hit := by
  unfold weightedSum
  rw [Finset.sum_eq_single r0]
  · rw [Finset.sum_eq_single c0]
    · simp [likelihood, hcol]
    · intro j hj hne
      have hj1 : j < W := Finset.mem_range.mp hj
      have : readCell grid r0 j ≠ some color := fun e => hne (huniq r0 j hr0 hj1 e).2
      simp [likelihood, this]
    · intro h; exact absurd (Finset.mem_range.mpr hc0) h
  · intro i hi hne
    apply Finset.sum_eq_zero
    intro j hj
    have hi1 : i < H := Finset.mem_range.mp hi
    have hj1 : j < W := Finset.mem_range.mp hj
    have : readCell grid i j ≠ some color := fun e => hne (huniq i j hi1 hj1 e).1
    simp [likelihood, this]
  · intro h; exact absurd (Finset.mem_range.mpr hr0) h

theorem neg_lt_tmod (a b : Int) (hb : 0 < b) : -b < Int.tmod a b := by
  rcases lt_or_le a 0 with h | h
  · have h1 : Int.tmod a b = -(Int.tmod (-a) b) := by
      rw [Int.tmod_def, Int.tmod_def, Int.neg_tdiv]; ring
    have h2 := Int.tmod_lt_of_pos (-a) hb
    omega
  · have := Int.tmod_nonneg b h
    omega

theorem tmod_emod (a b : Int) : Int.tmod a b % b = a % b := by
  have h := Int.tmod_add_tdiv a b
  calc Int.tmod a b % b = (Int.tmod a b + b * a.tdiv b) % b := by
        rw [Int.add_mul_emod_self_left]
    _ = a % b := by rw [h]

/-- Without overflow, `new_index` is the never-negative modulo. -/
theorem new_index_eq_emod (pos : Nat) (d : Int) (n : Nat) (hn : 0 < n) (hpos : pos < n)
    (hfit : ShiftFits d n) : new_index pos d n = ((pos : Int) + d) % (n : Int) := by
  obtain ⟨h1, h2, h3⟩ := hfit
  have hn0 : (0 : Int) < (n : Int) := by exact_mod_cast hn
  unfold new_index
  rw [wrapInt_of_fits ((pos : Int) + d) (by omega) (by omega)]
  have hlo := neg_lt_tmod ((pos : Int) + d) n hn0
  have hhi := Int.tmod_lt_of_pos ((pos : Int) + d) hn0
  rw [wrapInt_of_fits (Int.tmod ((pos : Int) + d) n + n) (by omega) (by omega)]
  rw [Int.tmod_eq_emod (by omega) (by omega), Int.add_emod_self, tmod_emod]

theorem shiftBy_lt (d : Int) (n : Nat) (hn : 0 < n) : shiftBy d n < n := by
  have hn0 : (0 : Int) < (n : Int) := by exact_mod_cast hn
  have h1 := Int.emod_nonneg d (ne_of_gt hn0)
  have h2 := Int.emod_lt_of_pos d hn0
  unfold shiftBy
  omega

theorem emod_eq_shiftBy (pos : Nat) (d : Int) (n : Nat) (hn : 0 < n) :
    ((pos : Int) + d) % (n : Int) = (((pos + shiftBy d n) % n : Nat) : Int) := by
  have hn0 : (0 : Int) < (n : Int) := by exact_mod_cast hn
  have h1 := Int.emod_nonneg d (ne_of_gt hn0)
  unfold shiftBy
  rw [Int.natCast_mod, Int.natCast_add, Int.toNat_of_nonneg h1, Int.add_emod_emod]

theorem new_index_eq (pos : Nat) (d : Int) (n : Nat) (hn : 0 < n) (hpos : pos < n)
    (hfit : ShiftFits d n) :
    new_index pos d n = (((pos + shiftBy d n) % n : Nat) : Int) := by
  rw [new_index_eq_emod pos d n hn hpos hfit, emod_eq_shiftBy pos d n hn]

theorem shiftBy_add_mul (d k : Int) (n : Nat) : shiftBy (d + k * n) n = shiftBy d n := by
  unfold shiftBy
  rw [Int.add_mul_emod_self]

theorem add_mod_injective (n a r k : Nat) (hr : r < n) (hk : k < n)
    (h : (r + a) % n = (k + a) % n) : r = k := by
  have h1 : r ≡ k [MOD n] := Nat.ModEq.add_right_cancel' a h
  exact Nat.ModEq.eq_of_lt_of_lt h1 hr hk

theorem sum_rotate_one (n : Nat) (g : Nat → ℚ) :
    ∑ i in Finset.range n, g ((i + 1) % n) = ∑ i in Finset.range n, g i := by
  cases n with
  | zero => simp
  | succ m =>
    rw [Finset.sum_range_succ, Finset.sum_range_succ']
    rw [Nat.mod_self]
    congr 1
    apply Finset.sum_congr rfl
    intro i hi
    rw [Nat.mod_eq_of_lt (by have := Finset.mem_range.mp hi; omega)]

theorem sum_rotate (n a : Nat) (f : Nat → ℚ) :
    ∑ i in Finset.range n, f ((i + a) % n) = ∑ i in Finset.range n, f i := by
  induction a with
  | zero =>
    apply Finset.sum_congr rfl
    intro i hi
    rw [Nat.add_zero, Nat.mod_eq_of_lt (Finset.mem_range.mp hi)]
  | succ a ih =>
    rw [← ih, ← sum_rotate_one n fun k => f ((k + a) % n)]
    apply Finset.sum_congr rfl
    intro i _
    show f ((i + (a + 1)) % n) = f (((i + 1) % n + a) % n)
    rw [Nat.mod_add_mod]
    congr 2
    omega

theorem sum_rotate_grid (H W a b : Nat) (f : Nat → Nat → ℚ) :
    ∑ i in Finset.range H, ∑ j in Finset.range W, f ((i + a) % H) ((j + b) % W)
      = ∑ i in Finset.range H, ∑ j in Finset.range W, f i j := by
  rw [sum_rotate H a fun i => ∑ j in Finset.range W, f i ((j + b) % W)]
  apply Finset.sum_congr rfl
  intro i _
  exact sum_rotate W b (f i)

/-! ## Loops and cell updates -/

theorem loopM_append {β : Type} (body : β → Nat → Except Fault β) (l1 l2 : List Nat) (s : β) :
    loopM body (l1 ++ l2) s
      = match loopM body l1 s with
        | .error e => .error e
        | .ok s1 => loopM body l2 s1 := by
  induction l1 generalizing s with
  | nil => rfl
  | cons i rest ih =>
    simp only [List.cons_append, loopM]
    cases body s i with
    | error e => rfl
    | ok s1 => exact ih s1

/-- A loop over `0, ..., n-1` whose every round succeeds and takes the
invariant from `k` to `k + 1` succeeds and ends in the invariant at `n`. -/
theorem loopM_range_inv {β : Type} (body : β → Nat → Except Fault β) (Inv : Nat → β → Prop)
    (n : Nat) (s0 : β) (h0 : Inv 0 s0)
    (hstep : ∀ k s, k < n → Inv k s → ∃ s1, body s k = .ok s1 ∧ Inv (k + 1) s1) :
    ∃ s1, loopM body (List.range n) s0 = .ok s1 ∧ Inv n s1 := by
  induction n with
  | zero => exact ⟨s0, rfl, h0⟩
  | succ n ih =>
    obtain ⟨s1, hs1, hinv⟩ := ih fun k s hk => hstep k s (by omega)
    obtain ⟨s2, hs2, hinv2⟩ := hstep n s1 (by omega) hinv
    refine ⟨s2, ?_, hinv2⟩
    rw [List.range_succ, loopM_append, hs1]
    simp [loopM, hs2]

/-- Whatever a loop returns satisfies every property that its rounds keep. -/
theorem loopM_keeps {β : Type} (body : β → Nat → Except Fault β) (P : β → Prop)
    (hstep : ∀ s i s1, P s → body s i = .ok s1 → P s1) (l : List Nat) (s0 s1 : β)
    (h0 : P s0) (h : loopM body l s0 = .ok s1) : P s1 := by
  induction l generalizing s0 with
  | nil =>
    simp only [loopM] at h
    cases h; exact h0
  | cons i rest ih =>
    simp only [loopM] at h
    cases hb : body s0 i with
    | error e => rw [hb] at h; cases h
    | ok s2 =>
      rw [hb] at h
      exact ih s2 (hstep s0 i s2 h0 hb) h

theorem loopM_congr {β : Type} (body1 body2 : β → Nat → Except Fault β) (l : List Nat)
    (h : ∀ i ∈ l, ∀ s, body1 s i = body2 s i) (s : β) :
    loopM body1 l s = loopM body2 l s := by
  induction l generalizing s with
  | nil => rfl
  | cons i rest ih =>
    simp only [loopM]
    rw [h i (by simp) s]
    cases body2 s i with
    | error e => rfl
    | ok s1 => exact ih (fun k hk => h k (by simp [hk])) s1

theorem cellAt_eq (g : BeliefGrid) (i j : Nat) (r : List ℚ) (h : g[i]? = some r) :
    cellAt g i j = r[j]?.getD 0 := by
  simp [cellAt, h]

theorem writeCell_ok (g : BeliefGrid) (H W i j : Nat) (v : ℚ) (hs : HasShape g H W)
    (hi : i < H) (hj : j < W) :
    ∃ g1, writeCell g (i : Int) (j : Int) v = .ok g1 ∧ HasShape g1 H W ∧
      ∀ i1 j1, cellAt g1 i1 j1 = if i1 = i ∧ j1 = j then v else cellAt g i1 j1 := by
  obtain ⟨hlen, hrows⟩ := hs
  have hi1 : i < g.length := by omega
  have hgi : g[i]? = some g[i] := List.getElem?_eq_getElem hi1
  have hr : (g[i]).length = W := hrows _ (List.getElem_mem ..)
  refine ⟨g.set i ((g[i]).set j v), ?_, ⟨by simp [hlen], ?_⟩, ?_⟩
  · unfold writeCell
    simp [hgi, hr, hj]
  · intro r hrm
    rcases List.mem_or_eq_of_mem_set hrm with h | h
    · exact hrows r h
    · rw [h]; simp [hr]
  · intro i1 j1
    by_cases h1 : i1 = i
    · subst h1
      have e1 : (g.set i1 ((g[i1]).set j v))[i1]? = some ((g[i1]).set j v) := by
        simp [List.getElem?_set, hi1]
      rw [cellAt_eq _ i1 j1 _ e1, cellAt_eq g i1 j1 _ hgi]
      by_cases h2 : j1 = j
      · subst h2
        simp [List.getElem?_set, hr, hj]
      · have h3 : ¬ (j = j1) := fun e => h2 e.symm
        simp [List.getElem?_set, h2, h3]
    · have h3 : ¬ (i = i1) := fun e => h1 e.symm
      have e1 : (g.set i ((g[i]).set j v))[i1]? = g[i1]? := by
        simp [List.getElem?_set, h3]
      simp [cellAt, e1, h1]

theorem mem_of_writeCell (g g1 : BeliefGrid) (i j : Int) (v : ℚ)
    (h : writeCell g i j v = .ok g1) :
    ∀ r ∈ g1, ∀ x ∈ r, x = v ∨ ∃ r0 ∈ g, x ∈ r0 := by
  unfold writeCell at h
  split at h
  · cases hg : g[i.toNat]? with
    | none => simp [hg] at h
    | some r0 =>
      simp only [hg] at h
      split at h
      · cases h
        intro r hr x hx
        rcases List.mem_or_eq_of_mem_set hr with h1 | h1
        · exact Or.inr ⟨r, h1, hx⟩
        · rw [h1] at hx
          rcases List.mem_or_eq_of_mem_set hx with h2 | h2
          · exact Or.inr ⟨r0, List.getElem?_mem hg, h2⟩
          · exact Or.inl h2
      · cases h
  · cases h

/-! ## The shift stage of `move` -/

theorem moveCell_step (dy dx : Int) (beliefs g : BeliefGrid) (H W row col : Nat)
    (hH : 0 < H) (hW : 0 < W) (hb : HasShape beliefs H W) (hg : HasShape g H W)
    (fy : ShiftFits dy H) (fx : ShiftFits dx W) (hr : row < H) (hc : col < W) :
    ∃ g1, moveCell dy dx H W beliefs row g col = .ok g1 ∧ HasShape g1 H W ∧
      ∀ i j, cellAt g1 i j
        = if i = (row + shiftBy dy H) % H ∧ j = (col + shiftBy dx W) % W
          then cellAt beliefs row col else cellAt g i j := by
  have hread := readCell_eq_cellAt beliefs H W row col hb hr hc
  have hi : (row + shiftBy dy H) % H < H := Nat.mod_lt _ hH
  have hj : (col + shiftBy dx W) % W < W := Nat.mod_lt _ hW
  obtain ⟨g1, h1, h2, h3⟩ := writeCell_ok g H W _ _ (cellAt beliefs row col) hg hi hj
  refine ⟨g1, ?_, h2, h3⟩
  unfold moveCell
  simp only [hread]
  rw [new_index_eq row dy H hH hr fy, new_index_eq col dx W hW hc fx]
  exact h1

theorem move_row (dy dx : Int) (beliefs g : BeliefGrid) (H W k : Nat)
    (hH : 0 < H) (hW : 0 < W) (hb : HasShape beliefs H W)
    (fy : ShiftFits dy H) (fx : ShiftFits dx W) (hk : k < H) (hg : HasShape g H W)
    (hdone : ∀ r c, r < k → c < W →
      cellAt g ((r + shiftBy dy H) % H) ((c + shiftBy dx W) % W) = cellAt beliefs r c) :
    ∃ g1, loopM (moveCell dy dx H W beliefs k) (List.range W) g = .ok g1 ∧ HasShape g1 H W ∧
      ∀ r c, r < k + 1 → c < W →
        cellAt g1 ((r + shiftBy dy H) % H) ((c + shiftBy dx W) % W) = cellAt beliefs r c := by
  obtain ⟨g1, h1, h2, h3, h4⟩ := loopM_range_inv (moveCell dy dx H W beliefs k)
    (fun m s => HasShape s H W ∧
      (∀ r c, r < k → c < W →
        cellAt s ((r + shiftBy dy H) % H) ((c + shiftBy dx W) % W) = cellAt beliefs r c) ∧
      (∀ c, c < m → c < W →
        cellAt s ((k + shiftBy dy H) % H) ((c + shiftBy dx W) % W) = cellAt beliefs k c))
    W g ⟨hg, hdone, fun c hc => absurd hc (Nat.not_lt_zero c)⟩
    (by
      intro m s hm ⟨hs, hprev, hcur⟩
      obtain ⟨s1, e1, e2, e3⟩ := moveCell_step dy dx beliefs s H W k m hH hW hb hs fy fx hk hm
      refine ⟨s1, e1, e2, ?_, ?_⟩
      · intro r c hr hc
        rw [e3, if_neg, hprev r c hr hc]
        intro ⟨h5, _⟩
        have := add_mod_injective H (shiftBy dy H) r k (by omega) hk h5
        omega
      · intro c hc hcW
        rw [e3]
        by_cases hcm : c = m
        · subst hcm; simp
        · rw [if_neg, hcur c (by omega) hcW]
          intro ⟨_, h6⟩
          exact hcm (add_mod_injective W (shiftBy dx W) c m hcW hm h6))
  refine ⟨g1, h1, h2, ?_⟩
  intro r c hr hc
  by_cases hrk : r = k
  · subst hrk; exact h4 c hc hc
  · exact h3 r c (by omega) hc

theorem move_shift (dy dx : Int) (beliefs : BeliefGrid) (H W : Nat)
    (hH : 0 < H) (hW : 0 < W) (hb : HasShape beliefs H W)
    (fy : ShiftFits dy H) (fx : ShiftFits dx W) :
    ∃ newGrid, shiftStage dy dx H W beliefs = .ok newGrid ∧
      IsShift newGrid beliefs H W (shiftBy dy H) (shiftBy dx W) := by
  have h := loopM_range_inv
    (fun g row => loopM (moveCell dy dx H W beliefs row) (List.range W) g)
    (fun k s => HasShape s H W ∧ ∀ r c, r < k → c < W →
        cellAt s ((r + shiftBy dy H) % H) ((c + shiftBy dx W) % W) = cellAt beliefs r c)
    H (gridOf H W fun _ _ => 0)
    ⟨hasShape_gridOf .., fun r c hr => absurd hr (Nat.not_lt_zero r)⟩
    (by
      intro k s hk ⟨hs, hdone⟩
      exact move_row dy dx beliefs s H W k hH hW hb fy fx hk hs hdone)
  obtain ⟨g1, h1, h2, h3⟩ := h
  refine ⟨g1, ?_, h2, fun r c hr hc => h3 r c hr hc⟩
  rw [← h1]
  simp only [shiftStage, Int.toNat_ofNat, gridOf]

theorem move_cons (dy dx : Int) (row0 : List ℚ) (rest : BeliefGrid) (blurring : ℚ) :
    move dy dx (row0 :: rest) blurring
      = (shiftStage dy dx (wrapInt (((row0 :: rest).length : Nat) : Int))
          (wrapInt ((row0.length : Nat) : Int)) (row0 :: rest)).bind
          fun newGrid => blur newGrid blurring := rfl

/-- Under the no-overflow bounds `move` is the blur of a shifted grid. -/
theorem move_eq_blur (dy dx : Int) (beliefs : BeliefGrid) (blurring : ℚ) (H W : Nat)
    (hH : 0 < H) (hW : 0 < W) (hb : HasShape beliefs H W)
    (fy : ShiftFits dy H) (fx : ShiftFits dx W) :
    ∃ newGrid, IsShift newGrid beliefs H W (shiftBy dy H) (shiftBy dx W) ∧
      move dy dx beliefs blurring = blur newGrid blurring := by
  obtain ⟨newGrid, h1, h2⟩ := move_shift dy dx beliefs H W hH hW hb fy fx
  refine ⟨newGrid, h2, ?_⟩
  have hlen := hb.1
  have hrows := hb.2
  have b1 := fy.1
  have b2 := fx.1
  cases beliefs with
  | nil => simp at hlen; omega
  | cons row0 rest =>
    have hw : row0.length = W := hrows row0 (by simp)
    have e1 : wrapInt (((row0 :: rest).length : Nat) : Int) = H := by
      rw [hlen]; exact wrapInt_of_fits _ (by omega) (by omega)
    have e2 : wrapInt ((row0.length : Nat) : Int) = W := by
      rw [hw]; exact wrapInt_of_fits _ (by omega) (by omega)
    rw [move_cons, e1, e2, h1]
    rfl

/-! ## Blur and normalization -/

theorem blur_eq_of_shape (g : BeliefGrid) (c : ℚ) (H W : Nat) (hs : HasShape g H W) :
    blur g c = normalize (gridOf H W (blurCell g c H W)) := by
  obtain ⟨hlen, hrows⟩ := hs
  unfold blur gridOf
  simp only [hlen]
  congr 1
  apply List.map_congr_left
  intro i hi
  have hi1 : i < g.length := by have := List.mem_range.mp hi; omega
  have hr : (g[i]).length = W := hrows _ (List.getElem_mem ..)
  simp [List.getElem?_eq_getElem hi1, hr]

theorem gridSum_of_shape (g : BeliefGrid) (H W : Nat) (hs : HasShape g H W) :
    gridSum g = ∑ i in Finset.range H, ∑ j in Finset.range W, cellAt g i j := by
  conv_lhs => rw [eq_gridOf_of_shape g H W hs]
  exact gridSum_gridOf H W (cellAt g)

theorem sum_blurCell (g : BeliefGrid) (c : ℚ) (H W : Nat) (hH : 0 < H) (hW : 0 < W) :
    ∑ i in Finset.range H, ∑ j in Finset.range W, blurCell g c H W i j
      = ∑ i in Finset.range H, ∑ j in Finset.range W, cellAt g i j := by
  have up := sum_rotate_grid H W (H - 1) 0 (cellAt g)
  have down := sum_rotate_grid H W 1 0 (cellAt g)
  have left := sum_rotate_grid H W 0 (W - 1) (cellAt g)
  have right := sum_rotate_grid H W 0 1 (cellAt g)
  have e : ∀ i ∈ Finset.range H, ∀ j ∈ Finset.range W,
      blurCell g c H W i j
        = (1 - c) * cellAt g i j + c / 4 *
            (cellAt g ((i + (H - 1)) % H) ((j + 0) % W) + cellAt g ((i + 1) % H) ((j + 0) % W)
              + cellAt g ((i + 0) % H) ((j + (W - 1)) % W)
              + cellAt g ((i + 0) % H) ((j + 1) % W)) := by
    intro i hi j hj
    have hi1 := Finset.mem_range.mp hi
    have hj1 := Finset.mem_range.mp hj
    unfold blurCell
    simp only [Nat.add_zero, Nat.mod_eq_of_lt hi1, Nat.mod_eq_of_lt hj1,
      Nat.add_sub_assoc hH, Nat.add_sub_assoc hW]
  rw [Finset.sum_congr rfl fun i hi => Finset.sum_congr rfl fun j hj => e i hi j hj]
  simp only [Finset.sum_add_distrib, ← Finset.mul_sum]
  rw [up, down, left, right]
  ring

theorem gridSum_blurCell (g : BeliefGrid) (c : ℚ) (H W : Nat) (hH : 0 < H) (hW : 0 < W)
    (hs : HasShape g H W) : gridSum (gridOf H W (blurCell g c H W)) = gridSum g := by
  rw [gridSum_gridOf, sum_blurCell g c H W hH hW, gridSum_of_shape g H W hs]

theorem gridSum_of_isShift (g beliefs : BeliefGrid) (H W a b : Nat)
    (hb : HasShape beliefs H W) (h : IsShift g beliefs H W a b) : gridSum g = gridSum beliefs := by
  obtain ⟨hs, hcell⟩ := h
  rw [gridSum_of_shape g H W hs, gridSum_of_shape beliefs H W hb,
    ← sum_rotate_grid H W a b (cellAt g)]
  apply Finset.sum_congr rfl
  intro i hi
  apply Finset.sum_congr rfl
  intro j hj
  exact hcell i j (Finset.mem_range.mp hi) (Finset.mem_range.mp hj)

theorem blurCell_zero (g : BeliefGrid) (H W i j : Nat) : blurCell g 0 H W i j = cellAt g i j := by
  unfold blurCell; ring

theorem normalize_of_sum_one (g : BeliefGrid) (h : gridSum g = 1) : normalize g = .ok g := by
  unfold normalize
  simp [h]

theorem blur_zero_of_sum_one (g : BeliefGrid) (H W : Nat) (hs : HasShape g H W)
    (h : gridSum g = 1) : blur g 0 = .ok g := by
  rw [blur_eq_of_shape g 0 H W hs]
  have e : gridOf H W (blurCell g 0 H W) = g := by
    rw [gridOf_congr H W (blurCell g 0 H W) (cellAt g) fun i _ j _ => blurCell_zero g H W i j]
    exact (eq_gridOf_of_shape g H W hs).symm
  rw [e]
  exact normalize_of_sum_one g h

theorem normalize_sum (g out : BeliefGrid) (H W : Nat) (hs : HasShape g H W)
    (h : normalize g = .ok out) : gridSum out = 1 ∧ HasShape out H W := by
  rw [eq_gridOf_of_shape g H W hs, normalize_gridOf] at h
  split at h
  · cases h
  · rename_i hne
    cases h
    exact ⟨by rw [gridSum_div]; exact div_self hne, hasShape_gridOf ..⟩

/-! ## Consequences for `move` -/

theorem toNat_emod_eq (pos : Nat) (d : Int) (n : Nat) (hn : 0 < n) :
    (((pos : Int) + d) % (n : Int)).toNat = (pos + shiftBy d n) % n := by
  rw [emod_eq_shiftBy pos d n hn, Int.toNat_ofNat]

theorem moveCell_congr (dy dx dy1 dx1 : Int) (beliefs g : BeliefGrid) (H W row col : Nat)
    (hH : 0 < H) (hW : 0 < W) (hr : row < H) (hc : col < W)
    (fy : ShiftFits dy H) (fx : ShiftFits dx W) (fy1 : ShiftFits dy1 H) (fx1 : ShiftFits dx1 W)
    (ey : shiftBy dy1 H = shiftBy dy H) (ex : shiftBy dx1 W = shiftBy dx W) :
    moveCell dy1 dx1 H W beliefs row g col = moveCell dy dx H W beliefs row g col := by
  unfold moveCell
  rw [new_index_eq row dy H hH hr fy, new_index_eq col dx W hW hc fx,
    new_index_eq row dy1 H hH hr fy1, new_index_eq col dx1 W hW hc fx1, ey, ex]

theorem shiftStage_congr (dy dx dy1 dx1 : Int) (beliefs : BeliefGrid) (H W : Nat)
    (hH : 0 < H) (hW : 0 < W)
    (fy : ShiftFits dy H) (fx : ShiftFits dx W) (fy1 : ShiftFits dy1 H) (fx1 : ShiftFits dx1 W)
    (ey : shiftBy dy1 H = shiftBy dy H) (ex : shiftBy dx1 W = shiftBy dx W) :
    shiftStage dy1 dx1 H W beliefs = shiftStage dy dx H W beliefs := by
  simp only [shiftStage, Int.toNat_ofNat]
  apply loopM_congr
  intro row hrow g
  apply loopM_congr
  intro col hcol g1
  exact moveCell_congr dy dx dy1 dx1 beliefs g1 H W row col hH hW (List.mem_range.mp hrow)
    (List.mem_range.mp hcol) fy fx fy1 fx1 ey ex

theorem wrapInt_sizes (beliefs : BeliefGrid) (row0 : List ℚ) (rest : BeliefGrid) (H W : Nat)
    (e : beliefs = row0 :: rest) (hb : HasShape beliefs H W)
    (bH : H ≤ 1073741824) (bW : W ≤ 1073741824) :
    wrapInt (((row0 :: rest).length : Nat) : Int) = H ∧
      wrapInt ((row0.length : Nat) : Int) = W := by
  subst e
  have hw : row0.length = W := hb.2 row0 (by simp)
  rw [hb.1, hw]
  exact ⟨wrapInt_of_fits _ (by omega) (by omega), wrapInt_of_fits _ (by omega) (by omega)⟩

theorem shift_inverse (i : Nat) (d : Int) (n : Nat) (hn : 0 < n) (hi : i < n) :
    (((i : Int) - d) % (n : Int)).toNat < n ∧
      ((((i : Int) - d) % (n : Int)).toNat + shiftBy d n) % n = i := by
  have hn0 : (0 : Int) < (n : Int) := by exact_mod_cast hn
  have h1 := Int.emod_nonneg ((i : Int) - d) (ne_of_gt hn0)
  have h2 := Int.emod_lt_of_pos ((i : Int) - d) hn0
  refine ⟨by omega, ?_⟩
  have e := emod_eq_shiftBy (((i : Int) - d) % (n : Int)).toNat d n hn
  rw [Int.toNat_of_nonneg h1, Int.emod_add_emod, Int.sub_add_cancel,
    Int.emod_eq_of_lt (by omega) (by omega)] at e
  exact_mod_cast e.symm

theorem normalize_ok (g : BeliefGrid) (h : gridSum g ≠ 0) :
    ∃ out, normalize g = .ok out := by
  unfold normalize
  exact ⟨_, if_neg h⟩

theorem gridSum_nonneg (g : BeliefGrid) (h : NonNeg g) : 0 ≤ gridSum g := by
  unfold gridSum
  apply List.sum_nonneg
  intro s hs
  simp only [List.mem_map] at hs
  obtain ⟨r, hr, rfl⟩ := hs
  exact List.sum_nonneg (h r hr)

theorem normalize_nonneg (g out : BeliefGrid) (hn : NonNeg g) (h : normalize g = .ok out) :
    NonNeg out := by
  simp only [normalize] at h
  split at h
  · cases h
  · cases h
    intro r hr x hx
    simp only [List.mem_map] at hr
    obtain ⟨r0, hr0, rfl⟩ := hr
    simp only [List.mem_map] at hx
    obtain ⟨x0, hx0, rfl⟩ := hx
    exact div_nonneg (hn r0 hr0 x0 hx0) (gridSum_nonneg g hn)

theorem blurCell_nonneg (g : BeliefGrid) (c : ℚ) (H W i j : Nat) (hn : NonNeg g)
    (h0 : 0 ≤ c) (h1 : c ≤ 1) : 0 ≤ blurCell g c H W i j := by
  unfold blurCell
  have a1 := cellAt_nonneg g hn i j
  have a2 := cellAt_nonneg g hn ((i + H - 1) % H) j
  have a3 := cellAt_nonneg g hn ((i + 1) % H) j
  have a4 := cellAt_nonneg g hn i ((j + W - 1) % W)
  have a5 := cellAt_nonneg g hn i ((j + 1) % W)
  have b1 : 0 ≤ 1 - c := by linarith
  have b2 : 0 ≤ c / 4 := by linarith
  positivity

theorem blur_nonneg (g out : BeliefGrid) (c : ℚ) (hn : NonNeg g) (h0 : 0 ≤ c) (h1 : c ≤ 1)
    (h : blur g c = .ok out) : NonNeg out := by
  unfold blur at h
  refine normalize_nonneg _ out ?_ h
  intro r hr x hx
  simp only [List.mem_map] at hr
  obtain ⟨i, _, rfl⟩ := hr
  simp only [List.mem_map] at hx
  obtain ⟨j, _, rfl⟩ := hx
  exact blurCell_nonneg g c _ _ i j hn h0 h1

theorem moveCell_nonneg (dy dx height width : Int) (beliefs : BeliefGrid) (row col : Nat)
    (g g1 : BeliefGrid) (hb : NonNeg beliefs) (hg : NonNeg g)
    (h : moveCell dy dx height width beliefs row g col = .ok g1) : NonNeg g1 := by
  unfold moveCell at h
  cases hr : readCell beliefs row col with
  | none => simp [hr] at h
  | some v =>
    simp only [hr] at h
    have hv : 0 ≤ v := by
      rw [← cellAt_of_readCell beliefs row col v hr]
      exact cellAt_nonneg beliefs hb row col
    intro r hr1 x hx
    rcases mem_of_writeCell g g1 _ _ v h r hr1 x hx with e | ⟨r0, hr0, hx0⟩
    · rw [e]; exact hv
    · exact hg r0 hr0 x hx0

theorem shiftStage_nonneg (dy dx height width : Int) (beliefs out : BeliefGrid)
    (hb : NonNeg beliefs) (h : shiftStage dy dx height width beliefs = .ok out) :
    NonNeg out := by
  unfold shiftStage at h
  refine loopM_keeps _ NonNeg ?_ _ _ out ?_ h
  · intro s row s1 hs hrow
    exact loopM_keeps _ NonNeg
      (fun g col g1 hg hcol => moveCell_nonneg dy dx height width beliefs row col g g1 hb hg hcol)
      _ s s1 hs hrow
  · intro r hr x hx
    simp only [List.mem_map] at hr
    obtain ⟨_, _, rfl⟩ := hr
    simp only [List.mem_map] at hx
    obtain ⟨_, _, rfl⟩ := hx
    exact le_refl 0

theorem move_nonneg (dy dx : Int) (beliefs out : BeliefGrid) (c : ℚ) (hb : NonNeg beliefs)
    (h0 : 0 ≤ c) (h1 : c ≤ 1) (h : move dy dx beliefs c = .ok out) : NonNeg out := by
  cases beliefs with
  | nil => cases h
  | cons row0 rest =>
    rw [move_cons] at h
    cases hs : shiftStage dy dx (wrapInt (((row0 :: rest).length : Nat) : Int))
        (wrapInt ((row0.length : Nat) : Int)) (row0 :: rest) with
    | error e => rw [hs] at h; cases h
    | ok newGrid =>
      rw [hs] at h
      exact blur_nonneg newGrid out c (shiftStage_nonneg _ _ _ _ _ newGrid hb hs) h0 h1 h

theorem move_ok_sum (dy dx : Int) (beliefs : BeliefGrid) (blurring : ℚ) (H W : Nat)
    (hH : 0 < H) (hW : 0 < W) (hb : HasShape beliefs H W) (hsum : gridSum beliefs ≠ 0)
    (fy : ShiftFits dy H) (fx : ShiftFits dx W) :
    ∃ out, move dy dx beliefs blurring = .ok out ∧ gridSum out = 1 ∧ HasShape out H W := by
  obtain ⟨newGrid, hshift, hmove⟩ := move_eq_blur dy dx beliefs blurring H W hH hW hb fy fx
  have hs : gridSum newGrid = gridSum beliefs := gridSum_of_isShift newGrid beliefs H W _ _ hb hshift
  have hblur := blur_eq_of_shape newGrid blurring H W hshift.1
  have hne : gridSum (gridOf H W (blurCell newGrid blurring H W)) ≠ 0 := by
    rw [gridSum_blurCell newGrid blurring H W hH hW hshift.1, hs]; exact hsum
  obtain ⟨out, hout⟩ := normalize_ok _ hne
  refine ⟨out, by rw [hmove, hblur, hout], ?_⟩
  exact normalize_sum _ out H W (hasShape_gridOf ..) hout

/-! ## Inputs outside the contracts -/

theorem covers_of_shape (beliefs : BeliefGrid) (H W : Nat) (hb : HasShape beliefs H W) :
    Covers beliefs H W :=
  fun r c hr hc => readCell_of_shape beliefs H W r c hb hr hc

theorem initialize_beliefs_no_columns (grid : ColorGrid) (H : Nat) (hH : 1 ≤ H)
    (hs : HasShape grid H 0) (hfit : H < 2147483648) :
    initialize_beliefs grid = .ok (List.replicate H []) := by
  obtain ⟨hlen, hrows⟩ := hs
  cases grid with
  | nil => simp at hlen; omega
  | cons row0 rest =>
    have hw : row0.length = 0 := hrows row0 (by simp)
    have hlen1 : rest.length + 1 = H := by simpa using hlen
    have e0 : wrapInt ((0 : Nat) : Int) = 0 := by decide
    rw [initialize_beliefs_cons, hw, hlen1, wrapInt_of_fits (H : Int) (by omega) (by omega), e0]
    simp

/-! ## Repeated sensing -/

theorem weightedSum_gridOf (color : Char) (grid : ColorGrid) (p_hit p_miss : ℚ) (H W : Nat)
    (f : Nat → Nat → ℚ) :
    weightedSum color grid (gridOf H W f) p_hit p_miss H W
      = ∑ i in Finset.range H, ∑ j in Finset.range W,
          f i j * likelihood color grid p_hit p_miss i j := by
  unfold weightedSum
  apply Finset.sum_congr rfl
  intro i hi
  apply Finset.sum_congr rfl
  intro j hj
  rw [cellAt_gridOf H W f i j (Finset.mem_range.mp hi) (Finset.mem_range.mp hj)]

theorem likelihood_pos (color : Char) (grid : ColorGrid) (p_hit p_miss : ℚ)
    (h1 : 0 < p_hit) (h2 : 0 < p_miss) (i j : Nat) :
    0 < likelihood color grid p_hit p_miss i j := by
  unfold likelihood
  split <;> assumption

theorem min_le_likelihood (color : Char) (grid : ColorGrid) (p_hit p_miss : ℚ) (i j : Nat) :
    min p_hit p_miss ≤ likelihood color grid p_hit p_miss i j := by
  unfold likelihood
  split
  · exact min_le_left _ _
  · exact min_le_right _ _

theorem weightedSum_pos (color : Char) (grid : ColorGrid) (beliefs : BeliefGrid)
    (p_hit p_miss : ℚ) (H W : Nat) (hb : HasShape beliefs H W) (hn : NonNeg beliefs)
    (hsum : gridSum beliefs ≠ 0) (h1 : 0 < p_hit) (h2 : 0 < p_miss) :
    0 < weightedSum color grid beliefs p_hit p_miss H W := by
  have hpos : 0 < gridSum beliefs := lt_of_le_of_ne (gridSum_nonneg beliefs hn) (Ne.symm hsum)
  have hmin : 0 < min p_hit p_miss := lt_min h1 h2
  have hle : min p_hit p_miss * gridSum beliefs
      ≤ weightedSum color grid beliefs p_hit p_miss H W := by
    rw [gridSum_of_shape beliefs H W hb, Finset.mul_sum]
    unfold weightedSum
    apply Finset.sum_le_sum
    intro i _
    rw [Finset.mul_sum]
    apply Finset.sum_le_sum
    intro j _
    rw [mul_comm]
    exact mul_le_mul_of_nonneg_left (min_le_likelihood color grid p_hit p_miss i j)
      (cellAt_nonneg beliefs hn i j)
  exact lt_of_lt_of_le (mul_pos hmin hpos) hle

/-- Two sensor updates in a row, as one table. -/
theorem sense_twice (c1 c2 : Char) (grid : ColorGrid) (b : BeliefGrid) (h1 m1 h2 m2 : ℚ)
    (H W : Nat) (hg : HasShape grid H W) (hb : HasShape b H W) (hn : NonNeg b)
    (hsum : gridSum b ≠ 0) (p1 : 0 < h1) (q1 : 0 < m1) (p2 : 0 < h2) (q2 : 0 < m2) :
    (sense c2 grid b h2 m2).bind (fun b2 => sense c1 grid b2 h1 m1)
      = .ok (gridOf H W fun i j =>
          cellAt b i j * (likelihood c1 grid h1 m1 i j * likelihood c2 grid h2 m2 i j)
            / ∑ r in Finset.range H, ∑ c in Finset.range W,
                cellAt b r c * (likelihood c1 grid h1 m1 r c * likelihood c2 grid h2 m2 r c)) := by
  have hS2 := weightedSum_pos c2 grid b h2 m2 H W hb hn hsum p2 q2
  have hT : 0 < ∑ r in Finset.range H, ∑ c in Finset.range W,
      cellAt b r c * (likelihood c1 grid h1 m1 r c * likelihood c2 grid h2 m2 r c) := by
    have hle : min h1 m1 * weightedSum c2 grid b h2 m2 H W
        ≤ ∑ r in Finset.range H, ∑ c in Finset.range W,
          cellAt b r c * (likelihood c1 grid h1 m1 r c * likelihood c2 grid h2 m2 r c) := by
      unfold weightedSum
      rw [Finset.mul_sum]
      apply Finset.sum_le_sum
      intro i _
      rw [Finset.mul_sum]
      apply Finset.sum_le_sum
      intro j _
      have a1 := cellAt_nonneg b hn i j
      have a2 := likelihood_pos c2 grid h2 m2 p2 q2 i j
      have a3 := min_le_likelihood c1 grid h1 m1 i j
      have : min h1 m1 * (cellAt b i j * likelihood c2 grid h2 m2 i j)
          = cellAt b i j * (min h1 m1 * likelihood c2 grid h2 m2 i j) := by ring
      rw [this]
      exact mul_le_mul_of_nonneg_left
        (mul_le_mul_of_nonneg_right a3 (le_of_lt a2)) a1
    exact lt_of_lt_of_le (mul_pos (lt_min p1 q1) hS2) hle
  rw [sense_eq_ok c2 grid b h2 m2 H W hg hb (ne_of_gt hS2)]
  show sense c1 grid _ h1 m1 = _
  have hsum1 : weightedSum c1 grid
      (gridOf H W fun i j => cellAt b i j * likelihood c2 grid h2 m2 i j
        / weightedSum c2 grid b h2 m2 H W) h1 m1 H W
      = (∑ r in Finset.range H, ∑ c in Finset.range W,
          cellAt b r c * (likelihood c1 grid h1 m1 r c * likelihood c2 grid h2 m2 r c))
        / weightedSum c2 grid b h2 m2 H W := by
    rw [weightedSum_gridOf, Finset.sum_div]
    apply Finset.sum_congr rfl
    intro i _
    rw [Finset.sum_div]
    apply Finset.sum_congr rfl
    intro j _
    ring
  have hne1 : weightedSum c1 grid
      (gridOf H W fun i j => cellAt b i j * likelihood c2 grid h2 m2 i j
        / weightedSum c2 grid b h2 m2 H W) h1 m1 H W ≠ 0 := by
    rw [hsum1]
    exact ne_of_gt (div_pos hT hS2)
  rw [sense_eq_ok c1 grid _ h1 m1 H W hg (hasShape_gridOf ..) hne1, hsum1]
  congr 1
  apply gridOf_congr
  intro i hi j hj
  rw [cellAt_gridOf H W _ i j hi hj]
  have e1 := ne_of_gt hS2
  have e2 := ne_of_gt hT
  field_simp
  ring

/-! ## The destination index, row by row -/

theorem wrapInt_range (z : Int) : -2147483648 ≤ wrapInt z ∧ wrapInt z < 2147483648 := by
  unfold wrapInt; omega

/-- On an axis of at most `2^30` positions the destination index is a valid
position, whatever the displacement. -/
theorem new_index_range (pos d : Int) (n : Nat) (hn : 0 < n) (hn2 : n ≤ 1073741824) :
    0 ≤ new_index pos d n ∧ new_index pos d n < n := by
  have hn0 : (0 : Int) < (n : Int) := by exact_mod_cast hn
  unfold new_index
  have hlo := neg_lt_tmod (wrapInt (pos + d)) n hn0
  have hhi := Int.tmod_lt_of_pos (wrapInt (pos + d)) hn0
  rw [wrapInt_of_fits (Int.tmod (wrapInt (pos + d)) n + n) (by omega) (by omega)]
  rw [Int.tmod_eq_emod (by omega) (by omega)]
  exact ⟨Int.emod_nonneg _ (ne_of_gt hn0), Int.emod_lt_of_pos _ hn0⟩

/-- When `pos + d` fits an `int`, the destination index is the never-negative
modulo. -/
theorem new_index_eq_of_no_wrap (pos d : Int) (n : Nat) (hn : 0 < n) (hn2 : n ≤ 1073741824)
    (h1 : -2147483648 ≤ pos + d) (h2 : pos + d < 2147483648) :
    new_index pos d n = (pos + d) % (n : Int) := by
  have hn0 : (0 : Int) < (n : Int) := by exact_mod_cast hn
  unfold new_index
  rw [wrapInt_of_fits (pos + d) h1 h2]
  have hlo := neg_lt_tmod (pos + d) n hn0
  have hhi := Int.tmod_lt_of_pos (pos + d) hn0
  rw [wrapInt_of_fits (Int.tmod (pos + d) n + n) (by omega) (by omega)]
  rw [Int.tmod_eq_emod (by omega) (by omega), Int.add_emod_self, tmod_emod]

theorem new_index_injective (d : Int) (n r k : Nat) (hn : 0 < n) (hr : r < n) (hk : k < n)
    (hfit : ShiftFits d n) (h : new_index r d n = new_index k d n) : r = k := by
  rw [new_index_eq r d n hn hr hfit, new_index_eq k d n hn hk hfit] at h
  exact add_mod_injective n (shiftBy d n) r k hr hk (by exact_mod_cast h)

theorem new_index_surjective (d : Int) (n i : Nat) (hn : 0 < n) (hi : i < n)
    (hfit : ShiftFits d n) : ∃ r, r < n ∧ new_index r d n = i := by
  obtain ⟨hr, er⟩ := shift_inverse i d n hn hi
  refine ⟨_, hr, ?_⟩
  rw [new_index_eq _ d n hn hr hfit, er]

/-! ## Blur after the shift, and composed shifts -/

theorem move_eq_of_shiftStage (dy dx : Int) (beliefs newGrid : BeliefGrid) (blurring : ℚ)
    (H W : Nat) (hb : HasShape beliefs H W) (hH : 1 ≤ H)
    (bH : H < 2147483648) (bW : W < 2147483648)
    (h : shiftStage dy dx H W beliefs = .ok newGrid) :
    move dy dx beliefs blurring = blur newGrid blurring := by
  have hlen := hb.1
  have hrows := hb.2
  cases beliefs with
  | nil => simp at hlen; omega
  | cons row0 rest =>
    have hw : row0.length = W := hrows row0 (by simp)
    have e1 : wrapInt (((row0 :: rest).length : Nat) : Int) = H := by
      rw [hlen]; exact wrapInt_of_fits _ (by omega) (by omega)
    have e2 : wrapInt ((row0.length : Nat) : Int) = W := by
      rw [hw]; exact wrapInt_of_fits _ (by omega) (by omega)
    rw [move_cons, e1, e2, h]
    rfl

theorem blur_of_sum_one (g : BeliefGrid) (c : ℚ) (H W : Nat) (hH : 0 < H) (hW : 0 < W)
    (hs : HasShape g H W) (h : gridSum g = 1) :
    blur g c = .ok (gridOf H W (blurCell g c H W)) := by
  rw [blur_eq_of_shape g c H W hs]
  exact normalize_of_sum_one _ (by rw [gridSum_blurCell g c H W hH hW hs, h])

/-- With coefficient 0 the blur formula rebuilds the grid it is given. -/
theorem blurred_zero_eq (g : BeliefGrid) :
    ((List.range g.length).map fun i =>
      (List.range (g[i]?.getD []).length).map fun j =>
        blurCell g 0 g.length (g[i]?.getD []).length i j) = g := by
  apply List.ext_getElem
  · simp
  · intro i h1 h2
    have hi : i < g.length := by simpa using h1
    apply List.ext_getElem
    · simp [List.getElem?_eq_getElem hi]
    · intro j h3 h4
      have hj : j < (g[i]).length := h4
      simp [blurCell_zero, cellAt, List.getElem?_eq_getElem hi, List.getElem?_eq_getElem hj]

theorem blur_zero_eq_normalize (g : BeliefGrid) : blur g 0 = normalize g := by
  unfold blur
  simp only []
  rw [blurred_zero_eq g]

theorem shiftBy_zero (n : Nat) : shiftBy 0 n = 0 := by
  unfold shiftBy
  simp

theorem eq_of_isShift_zero (g beliefs : BeliefGrid) (H W : Nat) (hb : HasShape beliefs H W)
    (h : IsShift g beliefs H W 0 0) : g = beliefs := by
  rw [eq_gridOf_of_shape g H W h.1, eq_gridOf_of_shape beliefs H W hb]
  apply gridOf_congr
  intro i hi j hj
  have e := h.2 i j hi hj
  rw [Nat.add_zero, Nat.add_zero, Nat.mod_eq_of_lt hi, Nat.mod_eq_of_lt hj] at e
  exact e

theorem shiftBy_add (d1 d2 : Int) (n : Nat) (hn : 0 < n) :
    shiftBy (d1 + d2) n = (shiftBy d1 n + shiftBy d2 n) % n := by
  have hn0 : (0 : Int) < (n : Int) := by exact_mod_cast hn
  have h1 := Int.emod_nonneg d1 (ne_of_gt hn0)
  have h2 := Int.emod_nonneg d2 (ne_of_gt hn0)
  have h3 := Int.emod_nonneg (d1 + d2) (ne_of_gt hn0)
  have e : (((shiftBy (d1 + d2) n : Nat) : Int))
      = (((shiftBy d1 n + shiftBy d2 n) % n : Nat) : Int) := by
    unfold shiftBy
    rw [Int.natCast_mod, Int.natCast_add, Int.toNat_of_nonneg h1, Int.toNat_of_nonneg h2,
      Int.toNat_of_nonneg h3, ← Int.add_emod]
  exact_mod_cast e

theorem isShift_mod (g beliefs : BeliefGrid) (H W a b a1 b1 : Nat)
    (ha : a1 % H = a % H) (hb : b1 % W = b % W) (h : IsShift g beliefs H W a b) :
    IsShift g beliefs H W a1 b1 := by
  refine ⟨h.1, ?_⟩
  intro r c hr hc
  have e := h.2 r c hr hc
  rw [Nat.add_mod r a1, Nat.add_mod c b1, ha, hb, ← Nat.add_mod, ← Nat.add_mod]
  exact e

theorem isShift_comp (g2 g1 beliefs : BeliefGrid) (H W a1 b1 a2 b2 : Nat)
    (hH : 0 < H) (hW : 0 < W)
    (h1 : IsShift g1 beliefs H W a1 b1) (h2 : IsShift g2 g1 H W a2 b2) :
    IsShift g2 beliefs H W (a1 + a2) (b1 + b2) := by
  refine ⟨h2.1, ?_⟩
  intro r c hr hc
  have e2 := h2.2 ((r + a1) % H) ((c + b1) % W) (Nat.mod_lt _ hH) (Nat.mod_lt _ hW)
  rw [Nat.mod_add_mod, Nat.mod_add_mod] at e2
  rw [← Nat.add_assoc, ← Nat.add_assoc, e2]
  exact h1.2 r c hr hc

theorem exists_shift_source (n a i : Nat) (hn : 0 < n) (hi : i < n) :
    ∃ r, r < n ∧ (r + a) % n = i := by
  obtain ⟨hr, er⟩ := shift_inverse i (a : Int) n hn hi
  refine ⟨_, hr, ?_⟩
  have hs : shiftBy (a : Int) n = a % n := by
    unfold shiftBy
    rw [← Int.natCast_mod, Int.toNat_ofNat]
  rw [hs, Nat.add_mod_mod] at er
  exact er

theorem isShift_unique (g g1 beliefs : BeliefGrid) (H W a b : Nat) (hH : 0 < H) (hW : 0 < W)
    (h : IsShift g beliefs H W a b) (h1 : IsShift g1 beliefs H W a b) : g = g1 := by
  rw [eq_gridOf_of_shape g H W h.1, eq_gridOf_of_shape g1 H W h1.1]
  apply gridOf_congr
  intro i hi j hj
  obtain ⟨r, hr, er⟩ := exists_shift_source H a i hH hi
  obtain ⟨c, hc, ec⟩ := exists_shift_source W b j hW hj
  rw [← er, ← ec, h.2 r c hr hc, h1.2 r c hr hc]

/-- A noiseless move of beliefs of sum 1 returns the shifted grid itself. -/
theorem move_noiseless_ok (dy dx : Int) (beliefs : BeliefGrid) (H W : Nat)
    (hH : 1 ≤ H) (hW : 1 ≤ W) (hb : HasShape beliefs H W) (hsum : gridSum beliefs = 1)
    (fy : ShiftFits dy H) (fx : ShiftFits dx W) :
    ∃ g, move dy dx beliefs 0 = .ok g ∧ IsShift g beliefs H W (shiftBy dy H) (shiftBy dx W) ∧
      gridSum g = 1 := by
  obtain ⟨newGrid, hshift, hmove⟩ := move_eq_blur dy dx beliefs 0 H W hH hW hb fy fx
  have hs : gridSum newGrid = 1 := by
    rw [gridSum_of_isShift newGrid beliefs H W _ _ hb hshift, hsum]
  exact ⟨newGrid, by rw [hmove, blur_zero_of_sum_one newGrid H W hshift.1 hs], hshift, hs⟩

/-! ## Axes of more than `2^30` positions -/

theorem new_index_zero_of_small (pos n : Nat) (hpos : pos < n)
    (h : pos + n < 2147483648) : new_index pos 0 n = pos := by
  have t1 : Int.tmod (pos : Int) (n : Int) = pos := Int.tmod_eq_of_lt (by omega) (by omega)
  have t2 : Int.tmod ((pos : Int) + (n : Int)) (n : Int) = pos := by
    rw [Int.tmod_eq_emod (by omega) (by omega), Int.add_emod_self,
      Int.emod_eq_of_lt (by omega) (by omega)]
  unfold new_index
  rw [Int.add_zero, wrapInt_of_fits (pos : Int) (by omega) (by omega), t1,
    wrapInt_of_fits ((pos : Int) + (n : Int)) (by omega) (by omega), t2]

theorem new_index_zero_negative (pos n : Nat) (hpos : pos < n)
    (h : pos + n = 2147483648) (hn : n < 2147483648) : new_index pos 0 n < 0 := by
  have e1 : (pos : Int) + (n : Int) = 2147483648 := by exact_mod_cast h
  have e2 : wrapInt 2147483648 = -2147483648 := by decide
  have e3 : Int.tmod (-2147483648) (n : Int) = -(Int.tmod 2147483648 (n : Int)) := by
    rw [Int.tmod_def, Int.tmod_def, Int.neg_tdiv]; ring
  have e4 : Int.tmod 2147483648 (n : Int) = 2147483648 - (n : Int) := by
    rw [Int.tmod_eq_emod (by omega) (by omega)]
    have : (2147483648 : Int) = (2147483648 - (n : Int)) + (n : Int) := by ring
    rw [this, Int.add_emod_self, Int.emod_eq_of_lt (by omega) (by omega)]
    ring
  have t1 : Int.tmod (pos : Int) (n : Int) = pos := Int.tmod_eq_of_lt (by omega) (by omega)
  unfold new_index
  rw [Int.add_zero, wrapInt_of_fits (pos : Int) (by omega) (by omega), t1, e1, e2, e3, e4]
  omega

theorem normalize_replicate (H W : Nat) (v : ℚ) (h : (H : ℚ) * ((W : ℚ) * v) ≠ 0) :
    normalize (List.replicate H (List.replicate W v))
      = .ok (List.replicate H (List.replicate W (v / ((H : ℚ) * ((W : ℚ) * v))))) := by
  unfold normalize
  simp only [gridSum_replicate]
  rw [if_neg h, List.map_replicate, List.map_replicate]

theorem readCell_replicate {α : Type} (H W i j : Nat) (v : α) (hi : i < H) (hj : j < W) :
    readCell (List.replicate H (List.replicate W v)) i j = some v := by
  unfold readCell
  rw [List.getElem?_replicate, if_pos hi]
  simp only []
  rw [List.getElem?_replicate, if_pos hj]

/-! ## Rounding to `float` -/

theorem roundHalfEven_eq (q : ℚ) (n : Int) (h1 : (n : ℚ) - 1 / 2 < q)
    (h2 : q < (n : ℚ) + 1 / 2) : roundHalfEven q = n := by
  unfold roundHalfEven
  by_cases hq : (n : ℚ) ≤ q
  · have hf : ⌊q⌋ = n := by
      rw [Int.floor_eq_iff]
      exact ⟨hq, by linarith⟩
    simp only [hf]
    rw [if_pos (by linarith)]
  · have hf : ⌊q⌋ = n - 1 := by
      rw [Int.floor_eq_iff]
      push_cast
      exact ⟨by linarith, by linarith⟩
    simp only [hf]
    push_cast
    rw [if_neg (by linarith), if_pos (by linarith)]
    ring

theorem log_two_eq (x : ℚ) (k : Int) (h1 : (2 : ℚ) ^ k ≤ |x|) (h2 : |x| < (2 : ℚ) ^ (k + 1)) :
    Int.log 2 |x| = k := by
  have hpos : 0 < |x| := lt_of_lt_of_le (by positivity) h1
  have a : k ≤ Int.log 2 |x| := by
    exact (Int.zpow_le_iff_le_log (by norm_num) hpos).mp (by exact_mod_cast h1)
  have b : Int.log 2 |x| < k + 1 := by
    exact (Int.lt_zpow_iff_log_lt (by norm_num) hpos).mp (by exact_mod_cast h2)
  omega

theorem toFloat_zero : toFloat 0 = some 0 := by
  unfold toFloat
  rw [if_pos rfl]

theorem toFloat_eq (x : ℚ) (k n : Int) (h1 : (2 : ℚ) ^ k ≤ |x|) (h2 : |x| < (2 : ℚ) ^ (k + 1))
    (hn1 : ((n : ℚ) - 1 / 2) * (2 : ℚ) ^ (max k (-126) - 23) < x)
    (hn2 : x < ((n : ℚ) + 1 / 2) * (2 : ℚ) ^ (max k (-126) - 23))
    (hy : |(n : ℚ) * (2 : ℚ) ^ (max k (-126) - 23)| < (2 : ℚ) ^ (128 : Nat)) :
    toFloat x = some ((n : ℚ) * (2 : ℚ) ^ (max k (-126) - 23)) := by
  have hx : x ≠ 0 := by
    intro h
    rw [h, abs_zero] at h1
    exact absurd h1 (not_le.mpr (by positivity))
  have hp : (0 : ℚ) < (2 : ℚ) ^ (max k (-126) - 23) := by positivity
  have hr : roundHalfEven (x / (2 : ℚ) ^ (max k (-126) - 23)) = n := by
    apply roundHalfEven_eq
    · rw [lt_div_iff₀ hp]; exact hn1
    · rw [div_lt_iff₀ hp]; exact hn2
  unfold toFloat
  rw [if_neg hx]
  simp only [log_two_eq x k h1 h2, hr]
  rw [if_pos hy]

theorem toFloat_underflow : toFloat (1 / 4 * (1 / 2 ^ 149)) = some 0 := by
  have h := toFloat_eq (1 / 4 * (1 / 2 ^ 149)) (-151) 0
    (by rw [abs_of_pos (by positivity), zpow_neg]; norm_num)
    (by rw [abs_of_pos (by positivity)]; norm_num [zpow_neg])
    (by norm_num [zpow_neg]) (by norm_num [zpow_neg]) (by norm_num)
  rw [h]; norm_num

theorem toFloat_three_quarters : toFloat (3 / 4) = some (3 / 4) := by
  have h := toFloat_eq (3 / 4) (-1) 12582912
    (by rw [abs_of_pos (by positivity), zpow_neg]; norm_num)
    (by rw [abs_of_pos (by positivity)]; norm_num)
    (by norm_num [zpow_neg]) (by norm_num [zpow_neg]) (by norm_num [zpow_neg, abs_of_pos])
  rw [h]; norm_num [zpow_neg]

theorem toFloat_quarter : toFloat (1 / 4) = some (1 / 4) := by
  have h := toFloat_eq (1 / 4) (-2) 8388608
    (by rw [abs_of_pos (by positivity), zpow_neg]; norm_num)
    (by rw [abs_of_pos (by positivity)]; norm_num [zpow_neg])
    (by norm_num [zpow_neg]) (by norm_num [zpow_neg]) (by norm_num [zpow_neg, abs_of_pos])
  rw [h]; norm_num [zpow_neg]

theorem toFloat_smallest : toFloat (1 / 2 ^ 149) = some (1 / 2 ^ 149) := by
  have h := toFloat_eq (1 / 2 ^ 149) (-149) 1
    (by rw [abs_of_pos (by positivity), zpow_neg]; norm_num)
    (by rw [abs_of_pos (by positivity)]; norm_num [zpow_neg])
    (by norm_num [zpow_neg]) (by norm_num [zpow_neg]) (by norm_num [zpow_neg, abs_of_pos])
  rw [h]; norm_num [zpow_neg]

theorem toFloat_one : toFloat 1 = some 1 := by
  have h := toFloat_eq 1 0 8388608
    (by norm_num)
    (by norm_num)
    (by norm_num [zpow_neg]) (by norm_num [zpow_neg]) (by norm_num [zpow_neg, abs_of_pos])
  rw [h]; norm_num [zpow_neg]

/-! ## `sense` in `float` arithmetic -/

theorem senseCellFloat_eq (color : Char) (grid : ColorGrid) (beliefs : BeliefGrid)
    (p_hit p_miss v : ℚ) (H W row col : Nat) (hg : HasShape grid H W)
    (hb : HasShape beliefs H W) (hr : row < H) (hc : col < W)
    (hv : toFloat (cellAt beliefs row col * likelihood color grid p_hit p_miss row col)
      = some v) :
    senseCellFloat color grid beliefs p_hit p_miss row col = .ok v := by
  obtain ⟨c, hc1⟩ := readCell_of_shape grid H W row col hg hr hc
  have hb1 := readCell_eq_cellAt beliefs H W row col hb hr hc
  unfold likelihood at hv
  rw [hc1] at hv
  unfold senseCellFloat
  rw [hc1, hb1]
  by_cases h : color = c
  · subst h
    simp only [if_true] at hv ⊢
    rw [hv]
  · have h2 : ¬ (some c = some color) := fun e => h (Option.some.inj e).symm
    rw [if_neg h2] at hv
    simp only [if_neg h]
    rw [hv]

theorem weighFloat_eq (color : Char) (grid : ColorGrid) (beliefs : BeliefGrid)
    (p_hit p_miss : ℚ) (H W : Nat) (f : Nat → Nat → ℚ) (hg : HasShape grid H W)
    (hb : HasShape beliefs H W)
    (hf : ∀ i j, i < H → j < W →
      toFloat (cellAt beliefs i j * likelihood color grid p_hit p_miss i j) = some (f i j)) :
    weighFloat color grid beliefs p_hit p_miss = .ok (gridOf H W f) := by
  unfold weighFloat
  rw [hg.1]
  unfold gridOf
  apply pushEach_eq_map
  intro row hrow
  have hr : row < H := List.mem_range.mp hrow
  rw [headD_length_of_shape grid H W hg (by omega)]
  apply pushEach_eq_map
  intro col hcol
  exact senseCellFloat_eq color grid beliefs p_hit p_miss _ H W row col hg hb hr
    (List.mem_range.mp hcol) (hf row col hr (List.mem_range.mp hcol))

theorem senseFloat_eq (color : Char) (grid : ColorGrid) (beliefs : BeliefGrid)
    (p_hit p_miss : ℚ) (H W : Nat) (f : Nat → Nat → ℚ) (hg : HasShape grid H W)
    (hb : HasShape beliefs H W)
    (hf : ∀ i j, i < H → j < W →
      toFloat (cellAt beliefs i j * likelihood color grid p_hit p_miss i j) = some (f i j)) :
    senseFloat color grid beliefs p_hit p_miss = normalize (gridOf H W f) := by
  unfold senseFloat
  rw [weighFloat_eq color grid beliefs p_hit p_miss H W f hg hb hf]

theorem senseFloat_of_weighFloat (color : Char) (grid : ColorGrid) (beliefs : BeliefGrid)
    (p_hit p_miss : ℚ) (newBeliefs : BeliefGrid)
    (h : weighFloat color grid beliefs p_hit p_miss = .ok newBeliefs) :
    senseFloat color grid beliefs p_hit p_miss = normalize newBeliefs := by
  unfold senseFloat
  rw [h]

theorem sum_single_cell (H W r0 c0 : Nat) (v : ℚ) (hr0 : r0 < H) (hc0 : c0 < W) :
    (∑ i in Finset.range H, ∑ j in Finset.range W, if i = r0 ∧ j = c0 then v else 0) = v := by
  rw [Finset.sum_eq_single r0]
  · rw [Finset.sum_eq_single c0]
    · simp
    · intro j _ hj
      simp [hj]
    · intro h
      exact absurd (Finset.mem_range.mpr hc0) h
  · intro i _ hi
    apply Finset.sum_eq_zero
    intro j _
    simp [hi]
  · intro h
    exact absurd (Finset.mem_range.mpr hr0) h

/-! ## Where no `int` operation overflows -/

/-- For every rectangular colour grid with `H ≥ 1` rows and
`W ≥ 1` columns whose area `H * W` fits the `int` that holds it
(`H * W < 2^31`), `initialize_beliefs` returns a grid of exactly `H` rows of
exactly `W` entries, every entry equal to `1 / (H * W)`, and the entries sum
to 1, whatever the colours are. -/
theorem initialize_beliefs_uniform (grid : ColorGrid) (H W : Nat) (hH : 1 ≤ H) (hW : 1 ≤ W)
    (hshape : HasShape grid H W) (hfit : H * W < 2147483648) :
    ∃ b, initialize_beliefs grid = .ok b ∧ HasShape b H W ∧
      (∀ r ∈ b, ∀ x ∈ r, x = 1 / ((H : ℚ) * (W : ℚ))) ∧ gridSum b = 1 := by
  refine ⟨_, initialize_beliefs_eq grid H W hH hW hshape hfit, ⟨by simp, ?_⟩, ?_, ?_⟩
  · intro r hr
    rw [List.eq_of_mem_replicate hr]; simp
  · intro r hr x hx
    rw [List.eq_of_mem_replicate hr] at hx
    exact List.eq_of_mem_replicate hx
  · rw [gridSum_replicate]
    have h1 : (H : ℚ) ≠ 0 := by exact_mod_cast (by omega : H ≠ 0)
    have h2 : (W : ℚ) ≠ 0 := by exact_mod_cast (by omega : W ≠ 0)
    field_simp

/-- The uniform initialisation at the 2x2 world of the doc comment. -/
theorem initialize_beliefs_uniform_witness :
    ∃ b, initialize_beliefs [['r', 'g'], ['g', 'g']] = .ok b ∧ HasShape b 2 2 ∧
      (∀ r ∈ b, ∀ x ∈ r, x = 1 / (((2 : Nat) : ℚ) * ((2 : Nat) : ℚ))) ∧ gridSum b = 1 :=
  initialize_beliefs_uniform [['r', 'g'], ['g', 'g']] 2 2 (by decide) (by decide)
    ⟨rfl, by decide⟩ (by decide)

/-- For a belief grid with `H ≥ 1` rows and `W ≥ 1` columns
whose entries sum to 1 and integers `dy`, `dx` for which no `int` operation
of the index computation overflows, `move` with blurring 0 returns a grid of
the same shape whose cell `((r + dy) mod H, (c + dx) mod W)` is
`beliefs[r][c]`; every cell `(i, j)` of the result is the belief of the one
source cell `((i - dy) mod H, (j - dx) mod W)`. -/
theorem move_noiseless_shift (dy dx : Int) (beliefs : BeliefGrid) (H W : Nat)
    (hH : 1 ≤ H) (hW : 1 ≤ W) (hb : HasShape beliefs H W) (hsum : gridSum beliefs = 1)
    (fy : ShiftFits dy H) (fx : ShiftFits dx W) :
    ∃ out, move dy dx beliefs 0 = .ok out ∧ HasShape out H W ∧
      (∀ r c : Nat, r < H → c < W →
        readCell out (((r : Int) + dy) % (H : Int)).toNat (((c : Int) + dx) % (W : Int)).toNat
          = some (cellAt beliefs r c)) ∧
      (∀ i j : Nat, i < H → j < W →
        readCell out i j
          = some (cellAt beliefs (((i : Int) - dy) % (H : Int)).toNat
              (((j : Int) - dx) % (W : Int)).toNat)) := by
  obtain ⟨newGrid, hshift, hmove⟩ := move_eq_blur dy dx beliefs 0 H W hH hW hb fy fx
  have hs : gridSum newGrid = 1 := by
    rw [gridSum_of_isShift newGrid beliefs H W _ _ hb hshift, hsum]
  have hfwd : ∀ r c, r < H → c < W →
      readCell newGrid (((r : Int) + dy) % (H : Int)).toNat
          (((c : Int) + dx) % (W : Int)).toNat = some (cellAt beliefs r c) := by
    intro r c hr hc
    rw [toNat_emod_eq r dy H hH, toNat_emod_eq c dx W hW,
      readCell_eq_cellAt newGrid H W _ _ hshift.1 (Nat.mod_lt _ hH) (Nat.mod_lt _ hW),
      hshift.2 r c hr hc]
  refine ⟨newGrid, by rw [hmove, blur_zero_of_sum_one newGrid H W hshift.1 hs], hshift.1,
    hfwd, ?_⟩
  intro i j hi hj
  obtain ⟨hr, er⟩ := shift_inverse i dy H hH hi
  obtain ⟨hc, ec⟩ := shift_inverse j dx W hW hj
  have h := hfwd _ _ hr hc
  rw [toNat_emod_eq _ dy H hH, toNat_emod_eq _ dx W hW, er, ec] at h
  exact h

/-- The example of the doc comment of `move`: the robot in the middle of a
3x3 world moves one cell down and one cell right. -/
theorem move_noiseless_shift_witness :
    ∃ out, move 1 1 [[0, 0, 0], [0, 1, 0], [0, 0, 0]] 0 = .ok out ∧ HasShape out 3 3 ∧
      (∀ r c : Nat, r < 3 → c < 3 →
        readCell out (((r : Int) + 1) % ((3 : Nat) : Int)).toNat
            (((c : Int) + 1) % ((3 : Nat) : Int)).toNat
          = some (cellAt [[0, 0, 0], [0, 1, 0], [0, 0, 0]] r c)) ∧
      (∀ i j : Nat, i < 3 → j < 3 →
        readCell out i j
          = some (cellAt [[0, 0, 0], [0, 1, 0], [0, 0, 0]]
              (((i : Int) - 1) % ((3 : Nat) : Int)).toNat
              (((j : Int) - 1) % ((3 : Nat) : Int)).toNat)) :=
  move_noiseless_shift 1 1 [[0, 0, 0], [0, 1, 0], [0, 0, 0]] 3 3 (by decide) (by decide)
    ⟨rfl, by simp⟩ (by simp [gridSum]) (by unfold ShiftFits; decide) (by unfold ShiftFits; decide)

/-- For a belief grid with `H ≥ 1` rows and `W ≥ 1` columns
whose entries sum to 1, integers `dy`, `dx` for which no `int` operation of
the index computation overflows and every blurring coefficient, `move`
returns a grid whose entries sum to 1. -/
theorem move_preserves_mass (dy dx : Int) (beliefs : BeliefGrid) (blurring : ℚ) (H W : Nat)
    (hH : 1 ≤ H) (hW : 1 ≤ W) (hb : HasShape beliefs H W) (hsum : gridSum beliefs = 1)
    (fy : ShiftFits dy H) (fx : ShiftFits dx W) :
    ∃ out, move dy dx beliefs blurring = .ok out ∧ gridSum out = 1 := by
  obtain ⟨out, h1, h2, _⟩ := move_ok_sum dy dx beliefs blurring H W hH hW hb
    (by rw [hsum]; exact one_ne_zero) fy fx
  exact ⟨out, h1, h2⟩

/-- A move one row up and two columns right in a 2x3 world, blurring one half. -/
theorem move_preserves_mass_witness :
    ∃ out, move (-1) 2 [[1/2, 0, 1/4], [0, 1/4, 0]] (1/2) = .ok out ∧ gridSum out = 1 :=
  move_preserves_mass (-1) 2 [[1/2, 0, 1/4], [0, 1/4, 0]] (1/2) 2 3 (by decide) (by decide)
    ⟨rfl, by simp⟩ (by simp [gridSum]; norm_num) (by unfold ShiftFits; decide)
    (by unfold ShiftFits; decide)

/-- For a belief grid with `H ≥ 1` rows and `W ≥ 1` columns,
every blurring coefficient and integers `dy`, `dx`, `k`, `m` such that no
`int` operation of the index computation overflows for `dy`, `dx`,
`dy + k * H` and `dx + m * W`, `move (dy + k * H) (dx + m * W)` and
`move dy dx` have the same outcome. -/
theorem move_displacement_mod (dy dx k m : Int) (beliefs : BeliefGrid) (blurring : ℚ)
    (H W : Nat) (hH : 1 ≤ H) (hW : 1 ≤ W) (hb : HasShape beliefs H W)
    (fy : ShiftFits dy H) (fx : ShiftFits dx W)
    (fy1 : ShiftFits (dy + k * (H : Int)) H) (fx1 : ShiftFits (dx + m * (W : Int)) W) :
    move (dy + k * (H : Int)) (dx + m * (W : Int)) beliefs blurring
      = move dy dx beliefs blurring := by
  cases hbel : beliefs with
  | nil => rfl
  | cons row0 rest =>
    obtain ⟨e1, e2⟩ := wrapInt_sizes beliefs row0 rest H W hbel hb fy.1 fx.1
    rw [move_cons, move_cons, e1, e2,
      shiftStage_congr dy dx (dy + k * (H : Int)) (dx + m * (W : Int)) (row0 :: rest) H W hH hW
        fy fx fy1 fx1 (shiftBy_add_mul dy k H) (shiftBy_add_mul dx m W)]

/-- Seven rows down and five columns left in a 3x2 world is one row down and
one column right. -/
theorem move_displacement_mod_witness :
    move (1 + 2 * ((3 : Nat) : Int)) (1 + (-3) * ((2 : Nat) : Int))
        [[1/2, 0], [0, 1/4], [1/4, 0]] (1/10)
      = move 1 1 [[1/2, 0], [0, 1/4], [1/4, 0]] (1/10) :=
  move_displacement_mod 1 1 2 (-3) [[1/2, 0], [0, 1/4], [1/4, 0]] (1/10) 3 2
    (by decide) (by decide) ⟨rfl, by simp⟩ (by unfold ShiftFits; decide)
    (by unfold ShiftFits; decide) (by unfold ShiftFits; decide) (by unfold ShiftFits; decide)

/-- The entries of the result of `initialize_beliefs` are
non-negative on a rectangular world with `H ≥ 1`, `W ≥ 1` and
`H * W < 2^31`; for a belief grid of that shape with non-negative entries,
the entries of the result of `sense` (with `p_hit ≥ 0`, `p_miss ≥ 0` and a
non-zero weighted sum) are non-negative, and so are the entries of every grid
that `move` returns (blurring in `[0, 1]`, any displacement); `move` does
return a grid when no `int` operation overflows and the beliefs have a
non-zero sum. -/
theorem beliefs_stay_nonneg (grid : ColorGrid) (color : Char) (beliefs : BeliefGrid)
    (p_hit p_miss blurring : ℚ) (dy dx : Int) (H W : Nat) (hH : 1 ≤ H) (hW : 1 ≤ W)
    (hg : HasShape grid H W) (hfit : H * W < 2147483648)
    (hb : HasShape beliefs H W) (hn : NonNeg beliefs) (hp1 : 0 ≤ p_hit) (hp2 : 0 ≤ p_miss)
    (hS : weightedSum color grid beliefs p_hit p_miss H W ≠ 0)
    (hc0 : 0 ≤ blurring) (hc1 : blurring ≤ 1) :
    (∃ b, initialize_beliefs grid = .ok b ∧ NonNeg b) ∧
    (∃ out, sense color grid beliefs p_hit p_miss = .ok out ∧ NonNeg out) ∧
    (∀ out, move dy dx beliefs blurring = .ok out → NonNeg out) ∧
    (ShiftFits dy H → ShiftFits dx W → gridSum beliefs ≠ 0 →
      ∃ out, move dy dx beliefs blurring = .ok out ∧ NonNeg out) := by
  refine ⟨⟨_, initialize_beliefs_eq grid H W hH hW hg hfit, ?_⟩,
    sense_nonneg color grid beliefs p_hit p_miss H W hg hb hn hp1 hp2 hS,
    fun out h => move_nonneg dy dx beliefs out blurring hn hc0 hc1 h, ?_⟩
  · intro r hr x hx
    rw [List.eq_of_mem_replicate hr] at hx
    rw [List.eq_of_mem_replicate hx]
    positivity
  · intro fy fx hsum
    obtain ⟨out, h1, _⟩ := move_ok_sum dy dx beliefs blurring H W hH hW hb hsum fy fx
    exact ⟨out, h1, move_nonneg dy dx beliefs out blurring hn hc0 hc1 h1⟩

/-- A 2x2 world, a green observation with weights 2 and 1, and a move one row
up and one column right with blurring one quarter, which returns a grid. -/
theorem beliefs_stay_nonneg_witness :
    (∃ b, initialize_beliefs [['g', 'r'], ['r', 'g']] = .ok b ∧ NonNeg b) ∧
    (∃ out, sense 'g' [['g', 'r'], ['r', 'g']] [[1/2, 1/2], [0, 0]] 2 1 = .ok out ∧
      NonNeg out) ∧
    (∀ out, move (-1) 1 [[1/2, 1/2], [0, 0]] (1/4) = .ok out → NonNeg out) ∧
    (∃ out, move (-1) 1 [[1/2, 1/2], [0, 0]] (1/4) = .ok out ∧ NonNeg out) := by
  have h := beliefs_stay_nonneg [['g', 'r'], ['r', 'g']] 'g' [[1/2, 1/2], [0, 0]] 2 1 (1/4)
    (-1) 1 2 2 (by decide) (by decide) ⟨rfl, by decide⟩ (by decide) ⟨rfl, by simp⟩
    (by
      intro r hr x hx
      simp only [List.mem_cons, List.mem_singleton, List.not_mem_nil, or_false] at hr
      rcases hr with rfl | rfl <;>
        simp only [List.mem_cons, List.mem_singleton, List.not_mem_nil, or_false, or_self]
          at hx <;>
        (try rcases hx with rfl | rfl) <;> norm_num)
    (by norm_num) (by norm_num)
    (by
      simp [weightedSum, Finset.sum_range_succ, cellAt, likelihood, readCell]
      norm_num)
    (by norm_num) (by norm_num)
  exact ⟨h.1, h.2.1, h.2.2.1,
    h.2.2.2 (by unfold ShiftFits; decide) (by unfold ShiftFits; decide)
      (by simp [gridSum])⟩

/-- For `H ≥ 1`, `W ≥ 1` and integers `dy`, `dx` for which
no `int` operation of the index computation overflows, the map
`(row, col) ↦ (new_row, new_col)` computed by the code sends `[0,H) x [0,W)`
into itself, is injective and is onto; the shift stage on an `H` x `W` grid
therefore succeeds and leaves in every destination cell the belief of its one
source cell. -/
theorem shift_is_permutation (dy dx : Int) (H W : Nat) (hH : 1 ≤ H) (hW : 1 ≤ W)
    (fy : ShiftFits dy H) (fx : ShiftFits dx W) :
    (∀ r c : Nat, r < H → c < W →
        ∃ i j : Nat, i < H ∧ j < W ∧ new_index r dy H = i ∧ new_index c dx W = j) ∧
      (∀ r c r1 c1 : Nat, r < H → c < W → r1 < H → c1 < W →
        new_index r dy H = new_index r1 dy H → new_index c dx W = new_index c1 dx W →
        r = r1 ∧ c = c1) ∧
      (∀ i j : Nat, i < H → j < W →
        ∃ r c : Nat, r < H ∧ c < W ∧ new_index r dy H = i ∧ new_index c dx W = j) ∧
      (∀ beliefs : BeliefGrid, HasShape beliefs H W →
        ∃ newGrid, shiftStage dy dx H W beliefs = .ok newGrid ∧ HasShape newGrid H W ∧
          ∀ r c : Nat, r < H → c < W →
            readCell newGrid (new_index r dy H).toNat (new_index c dx W).toNat
              = some (cellAt beliefs r c)) := by
  refine ⟨?_, ?_, ?_, ?_⟩
  · intro r c hr hc
    exact ⟨(r + shiftBy dy H) % H, (c + shiftBy dx W) % W, Nat.mod_lt _ hH, Nat.mod_lt _ hW,
      new_index_eq r dy H hH hr fy, new_index_eq c dx W hW hc fx⟩
  · intro r c r1 c1 hr hc hr1 hc1 e1 e2
    exact ⟨new_index_injective dy H r r1 hH hr hr1 fy e1,
      new_index_injective dx W c c1 hW hc hc1 fx e2⟩
  · intro i j hi hj
    obtain ⟨r, hr, er⟩ := new_index_surjective dy H i hH hi fy
    obtain ⟨c, hc, ec⟩ := new_index_surjective dx W j hW hj fx
    exact ⟨r, c, hr, hc, er, ec⟩
  · intro beliefs hb
    obtain ⟨newGrid, h1, h2, h3⟩ := move_shift dy dx beliefs H W hH hW hb fy fx
    refine ⟨newGrid, h1, h2, ?_⟩
    intro r c hr hc
    rw [new_index_eq r dy H hH hr fy, new_index_eq c dx W hW hc fx, Int.toNat_ofNat,
      Int.toNat_ofNat,
      readCell_eq_cellAt newGrid H W _ _ h2 (Nat.mod_lt _ hH) (Nat.mod_lt _ hW), h3 r c hr hc]

/-- Two rows up and four columns right in a 3x2 world. -/
theorem shift_is_permutation_witness :
    (∀ r c : Nat, r < 3 → c < 2 →
        ∃ i j : Nat, i < 3 ∧ j < 2 ∧ new_index r (-2) (3 : Nat) = i ∧
          new_index c 4 (2 : Nat) = j) ∧
      (∀ r c r1 c1 : Nat, r < 3 → c < 2 → r1 < 3 → c1 < 2 →
        new_index r (-2) (3 : Nat) = new_index r1 (-2) (3 : Nat) →
        new_index c 4 (2 : Nat) = new_index c1 4 (2 : Nat) →
        r = r1 ∧ c = c1) ∧
      (∀ i j : Nat, i < 3 → j < 2 →
        ∃ r c : Nat, r < 3 ∧ c < 2 ∧ new_index r (-2) (3 : Nat) = i ∧
          new_index c 4 (2 : Nat) = j) ∧
      (∀ beliefs : BeliefGrid, HasShape beliefs 3 2 →
        ∃ newGrid, shiftStage (-2) 4 (3 : Nat) (2 : Nat) beliefs = .ok newGrid ∧
          HasShape newGrid 3 2 ∧
          ∀ r c : Nat, r < 3 → c < 2 →
            readCell newGrid (new_index r (-2) (3 : Nat)).toNat
                (new_index c 4 (2 : Nat)).toNat
              = some (cellAt beliefs r c)) :=
  shift_is_permutation (-2) 4 3 2 (by decide) (by decide) (by unfold ShiftFits; decide)
    (by unfold ShiftFits; decide)

/-- For a height `1 ≤ H ≤ 2^30`, a row in `[0, H)` and a
`dy` representable in a 32-bit `int`, the value of
`((row + dy) % height + height) % height` in `int` arithmetic lies in
`[0, H)`; it equals the mathematical `(row + dy) mod H` whenever `row + dy`
does not exceed `2^31 - 1`. The same holds for columns. -/
theorem new_index_is_modulo (H row : Nat) (dy : Int) (hH : 1 ≤ H) (hH2 : H ≤ 1073741824)
    (hrow : row < H) (hlo : -2147483648 ≤ dy) (hhi : dy < 2147483648) :
    (0 ≤ new_index row dy H ∧ new_index row dy H < H) ∧
      ((row : Int) + dy < 2147483648 →
        new_index row dy H = ((row : Int) + dy) % (H : Int)) := by
  refine ⟨new_index_range row dy H hH hH2, ?_⟩
  intro hfit
  exact new_index_eq_of_no_wrap row dy H hH hH2 (by omega) hfit

/-- Row 1 of 3 and the most negative displacement. -/
theorem new_index_is_modulo_witness :
    (0 ≤ new_index ((1 : Nat) : Int) (-2147483648) ((3 : Nat) : Int) ∧
        new_index ((1 : Nat) : Int) (-2147483648) ((3 : Nat) : Int) < ((3 : Nat) : Int)) ∧
      new_index ((1 : Nat) : Int) (-2147483648) ((3 : Nat) : Int)
        = (((1 : Nat) : Int) + (-2147483648)) % ((3 : Nat) : Int) := by
  have h := new_index_is_modulo 3 1 (-2147483648) (by decide) (by decide) (by decide)
    (by decide) (by decide)
  exact ⟨h.1, h.2 (by decide)⟩

/-- For an `H` x `W` grid with `H ≥ 1`, `W ≥ 1` and every
coefficient, the grid of the blur formula has the same total as the grid it
is computed from; so the Normalize step inside Blur changes nothing when the
grid handed to Blur sums to 1, which is the case in `move` when its input
sums to 1 and no `int` operation of the shift overflows. -/
theorem blur_conserves_mass (g : BeliefGrid) (c : ℚ) (H W : Nat) (hH : 1 ≤ H) (hW : 1 ≤ W)
    (hs : HasShape g H W) :
    gridSum (gridOf H W (blurCell g c H W)) = gridSum g ∧
      (gridSum g = 1 → blur g c = .ok (gridOf H W (blurCell g c H W))) ∧
      (∀ (dy dx : Int) (beliefs : BeliefGrid), HasShape beliefs H W → gridSum beliefs = 1 →
        ShiftFits dy H → ShiftFits dx W →
        ∃ newGrid, shiftStage dy dx H W beliefs = .ok newGrid ∧
          move dy dx beliefs c = .ok (gridOf H W (blurCell newGrid c H W))) := by
  refine ⟨gridSum_blurCell g c H W hH hW hs, blur_of_sum_one g c H W hH hW hs, ?_⟩
  intro dy dx beliefs hb hsum fy fx
  obtain ⟨newGrid, h1, h2⟩ := move_shift dy dx beliefs H W hH hW hb fy fx
  have hsum1 : gridSum newGrid = 1 := by
    rw [gridSum_of_isShift newGrid beliefs H W _ _ hb h2, hsum]
  refine ⟨newGrid, h1, ?_⟩
  have b1 := fy.1
  have b2 := fx.1
  rw [move_eq_of_shiftStage dy dx beliefs newGrid c H W hb hH (by omega) (by omega) h1]
  exact blur_of_sum_one newGrid c H W hH hW h2.1 hsum1

/-- A 1x2 world, where the left and the right neighbour of a cell coincide and
a cell is its own upper and lower neighbour; coefficient three quarters. -/
theorem blur_conserves_mass_witness :
    gridSum (gridOf 1 2 (blurCell [[1/3, 2/3]] (3/4) 1 2)) = gridSum [[1/3, 2/3]] ∧
      blur [[1/3, 2/3]] (3/4) = .ok (gridOf 1 2 (blurCell [[1/3, 2/3]] (3/4) 1 2)) ∧
      ∃ newGrid, shiftStage 0 1 ((1 : Nat) : Int) ((2 : Nat) : Int) [[1/3, 2/3]] = .ok newGrid ∧
        move 0 1 [[1/3, 2/3]] (3/4) = .ok (gridOf 1 2 (blurCell newGrid (3/4) 1 2)) := by
  have h := blur_conserves_mass [[1/3, 2/3]] (3/4) 1 2 (by decide) (by decide) ⟨rfl, by simp⟩
  have hsum : gridSum [[(1 : ℚ)/3, 2/3]] = 1 := by simp [gridSum]; norm_num
  exact ⟨h.1, h.2.1 hsum,
    h.2.2 0 1 [[1/3, 2/3]] ⟨rfl, by simp⟩ hsum (by unfold ShiftFits; decide)
      (by unfold ShiftFits; decide)⟩

/-- Blur with coefficient 0 has the outcome of Normalize on
every grid; for a rectangular grid with at most `2^30` rows and columns and
non-zero sum, Normalize returns a grid, `move 0 0 beliefs 0` has the outcome
of `normalize beliefs`, and it returns the beliefs themselves when they sum
to 1. -/
theorem blur_zero_is_normalize (beliefs : BeliefGrid) (H W : Nat) (hH : 1 ≤ H) (hW : 1 ≤ W)
    (hH2 : H ≤ 1073741824) (hW2 : W ≤ 1073741824) (hb : HasShape beliefs H W)
    (hsum : gridSum beliefs ≠ 0) :
    (∀ g : BeliefGrid, blur g 0 = normalize g) ∧
      (∃ out, normalize beliefs = .ok out) ∧
      move 0 0 beliefs 0 = normalize beliefs ∧
      (gridSum beliefs = 1 → move 0 0 beliefs 0 = .ok beliefs) := by
  have fy : ShiftFits 0 H := ⟨hH2, by decide, by omega⟩
  have fx : ShiftFits 0 W := ⟨hW2, by decide, by omega⟩
  obtain ⟨newGrid, hshift, hmove⟩ := move_eq_blur 0 0 beliefs 0 H W hH hW hb fy fx
  rw [shiftBy_zero, shiftBy_zero] at hshift
  have e : newGrid = beliefs := eq_of_isShift_zero newGrid beliefs H W hb hshift
  have hm : move 0 0 beliefs 0 = normalize beliefs := by
    rw [hmove, e, blur_zero_eq_normalize]
  refine ⟨blur_zero_eq_normalize, normalize_ok beliefs hsum, hm, ?_⟩
  intro h1
  rw [hm, normalize_of_sum_one beliefs h1]

/-- A 2x2 world with beliefs of sum 2. -/
theorem blur_zero_is_normalize_witness :
    (∀ g : BeliefGrid, blur g 0 = normalize g) ∧
      (∃ out, normalize [[1, 0], [1/2, 1/2]] = .ok out) ∧
      move 0 0 [[1, 0], [1/2, 1/2]] 0 = normalize [[1, 0], [1/2, 1/2]] ∧
      (gridSum [[1, 0], [(1 : ℚ)/2, 1/2]] = 1 →
        move 0 0 [[1, 0], [1/2, 1/2]] 0 = .ok [[1, 0], [1/2, 1/2]]) :=
  blur_zero_is_normalize [[1, 0], [1/2, 1/2]] 2 2 (by decide) (by decide) (by decide)
    (by decide) ⟨rfl, by simp⟩ (by simp [gridSum]; norm_num)

/-- For a belief grid with `H ≥ 1` rows and `W ≥ 1` columns
whose entries sum to 1 and integers `dy1`, `dx1`, `dy2`, `dx2` such that no
`int` operation of the index computation overflows for the two displacements
and for their sum, two noiseless moves in a row give the grid of the one
noiseless move by the sum, and that move returns a grid; when the sum is zero
the two moves give back the beliefs. -/
theorem move_noiseless_compose (dy1 dx1 dy2 dx2 : Int) (b : BeliefGrid) (H W : Nat)
    (hH : 1 ≤ H) (hW : 1 ≤ W) (hb : HasShape b H W) (hsum : gridSum b = 1)
    (fy1 : ShiftFits dy1 H) (fx1 : ShiftFits dx1 W)
    (fy2 : ShiftFits dy2 H) (fx2 : ShiftFits dx2 W)
    (fy : ShiftFits (dy1 + dy2) H) (fx : ShiftFits (dx1 + dx2) W) :
    (move dy1 dx1 b 0).bind (fun g => move dy2 dx2 g 0) = move (dy1 + dy2) (dx1 + dx2) b 0 ∧
      (∃ out, move (dy1 + dy2) (dx1 + dx2) b 0 = .ok out) ∧
      (dy1 + dy2 = 0 → dx1 + dx2 = 0 →
        (move dy1 dx1 b 0).bind (fun g => move dy2 dx2 g 0) = .ok b) := by
  obtain ⟨g1, m1, s1, t1⟩ := move_noiseless_ok dy1 dx1 b H W hH hW hb hsum fy1 fx1
  obtain ⟨g2, m2, s2, _⟩ := move_noiseless_ok dy2 dx2 g1 H W hH hW s1.1 t1 fy2 fx2
  obtain ⟨g3, m3, s3, _⟩ := move_noiseless_ok (dy1 + dy2) (dx1 + dx2) b H W hH hW hb hsum fy fx
  have hcomp := isShift_comp g2 g1 b H W _ _ _ _ hH hW s1 s2
  have h3 : IsShift g3 b H W (shiftBy dy1 H + shiftBy dy2 H) (shiftBy dx1 W + shiftBy dx2 W) :=
    isShift_mod g3 b H W _ _ _ _
      (by rw [shiftBy_add dy1 dy2 H hH, Nat.mod_mod])
      (by rw [shiftBy_add dx1 dx2 W hW, Nat.mod_mod]) s3
  have e : g2 = g3 := isShift_unique g2 g3 b H W _ _ hH hW hcomp h3
  have hbind : (move dy1 dx1 b 0).bind (fun g => move dy2 dx2 g 0) = .ok g2 := by
    rw [m1]; exact m2
  refine ⟨by rw [hbind, m3, e], ⟨g3, m3⟩, ?_⟩
  intro ey ex
  rw [hbind, e]
  congr 1
  rw [ey, ex, shiftBy_zero, shiftBy_zero] at s3
  exact eq_of_isShift_zero g3 b H W hb s3

/-- Two rows down and one column left, then two rows up and one column right,
in a 3x2 world: the second move undoes the first. -/
theorem move_noiseless_compose_witness :
    (move 2 (-1) [[1/2, 0], [1/4, 0], [0, 1/4]] 0).bind (fun g => move (-2) 1 g 0)
        = move (2 + -2) (-1 + 1) [[1/2, 0], [1/4, 0], [0, 1/4]] 0 ∧
      (∃ out, move (2 + -2) (-1 + 1) [[1/2, 0], [1/4, 0], [0, 1/4]] 0 = .ok out) ∧
      (move 2 (-1) [[1/2, 0], [1/4, 0], [0, 1/4]] 0).bind (fun g => move (-2) 1 g 0)
        = .ok [[1/2, 0], [1/4, 0], [0, 1/4]] := by
  have h := move_noiseless_compose 2 (-1) (-2) 1 [[1/2, 0], [1/4, 0], [0, 1/4]] 3 2
    (by decide) (by decide) ⟨rfl, by simp⟩ (by simp [gridSum]; norm_num)
    (by unfold ShiftFits; decide) (by unfold ShiftFits; decide)
    (by unfold ShiftFits; decide) (by unfold ShiftFits; decide)
    (by unfold ShiftFits; decide) (by unfold ShiftFits; decide)
  exact ⟨h.1, h.2.1, h.2.2 (by decide) (by decide)⟩

/-! ## The perfect sensor in exact arithmetic -/

/-- In exact arithmetic, with `p_hit > 0` and `p_miss = 0`, if exactly one cell `(r0, c0)`
carries the observed colour and its belief is positive, `sense` returns the
grid with 1 at `(r0, c0)` and 0 everywhere else. -/
theorem sense_perfect_sensor (color : Char) (grid : ColorGrid) (beliefs : BeliefGrid)
    (p_hit : ℚ) (H W r0 c0 : Nat) (hg : HasShape grid H W) (hb : HasShape beliefs H W)
    (hr0 : r0 < H) (hc0 : c0 < W) (hcol : readCell grid r0 c0 = some color)
    (huniq : ∀ i j, i < H → j < W → readCell grid i j = some color → i = r0 ∧ j = c0)
    (hpos : 0 < cellAt beliefs r0 c0) (hp : 0 < p_hit) :
    sense color grid beliefs p_hit 0
      = .ok (gridOf H W fun i j => if i = r0 ∧ j = c0 then 1 else 0) := by
  have hS := weightedSum_single color grid beliefs p_hit H W r0 c0 hr0 hc0 hcol huniq
  have hne : weightedSum color grid beliefs p_hit 0 H W ≠ 0 := by
    rw [hS]; exact ne_of_gt (mul_pos hpos hp)
  rw [sense_eq_ok color grid beliefs p_hit 0 H W hg hb hne]
  congr 1
  apply gridOf_congr
  intro i hi j hj
  by_cases h : i = r0 ∧ j = c0
  · obtain ⟨rfl, rfl⟩ := h
    have hl : likelihood color grid p_hit 0 i j = p_hit := by simp [likelihood, hcol]
    rw [hl, hS]
    simp only [and_self, if_true]
    rw [hS] at hne
    exact div_self hne
  · have hl : likelihood color grid p_hit 0 i j = 0 := by
      have : readCell grid i j ≠ some color := fun e => h (huniq i j hi hj e)
      simp [likelihood, this]
    rw [hl, if_neg h]
    simp

/-- The hit-or-miss example of the spec: a 2x2 world with one red cell,
uniform beliefs, a red observation and a perfect sensor. -/
theorem sense_perfect_sensor_witness :
    sense 'r' [['r', 'g'], ['g', 'g']] [[1/4, 1/4], [1/4, 1/4]] 1 0
      = .ok (gridOf 2 2 fun i j => if i = 0 ∧ j = 0 then 1 else 0) :=
  sense_perfect_sensor 'r' [['r', 'g'], ['g', 'g']] [[1/4, 1/4], [1/4, 1/4]] 1 2 2 0 0
    ⟨rfl, by decide⟩ ⟨rfl, by simp⟩ (by decide) (by decide) rfl
    (by
      intro i j hi hj
      interval_cases i <;> interval_cases j <;> simp [readCell])
    (by simp [cellAt]) (by norm_num)

/-! ## The claims -/

/-- C1: on a 46341 x 46341 world the product `height * width` is 2147488281,
which the `int` `area` holds as -2147479015; `initialize_beliefs` returns
46341 rows of 46341 cells that all equal `1 / -2147479015`: every cell is
negative, none equals `1 / (46341 * 46341)`, and the cells do not sum to 1. -/
theorem initialize_beliefs_area_overflow :
    HasShape (List.replicate 46341 (List.replicate 46341 'g')) 46341 46341 ∧
    wrapInt (46341 * 46341) = -2147479015 ∧
    initialize_beliefs (List.replicate 46341 (List.replicate 46341 'g'))
      = .ok (List.replicate 46341 (List.replicate 46341 (-1 / 2147479015))) ∧
    (-1 / 2147479015 : ℚ) < 0 ∧
    (-1 / 2147479015 : ℚ) ≠ 1 / (((46341 : Nat) : ℚ) * ((46341 : Nat) : ℚ)) ∧
    gridSum (List.replicate 46341 (List.replicate 46341 (-1 / 2147479015 : ℚ))) ≠ 1 := by
  have hshape : HasShape (List.replicate 46341 (List.replicate 46341 'g')) 46341 46341 := by
    refine ⟨List.length_replicate .., ?_⟩
    intro r hr
    rw [List.eq_of_mem_replicate hr]; exact List.length_replicate ..
  have hcons : List.replicate 46341 (List.replicate 46341 'g')
      = List.replicate 46341 'g' :: List.replicate 46340 (List.replicate 46341 'g') :=
    List.replicate_succ ..
  have w1 : wrapInt ((46340 + 1 : Nat) : Int) = 46341 := by decide
  have w2 : wrapInt (46341 * 46341) = -2147479015 := by decide
  have t : Int.toNat 46341 = 46341 := by decide
  refine ⟨hshape, w2, ?_, by norm_num, by norm_num, ?_⟩
  · rw [hcons, initialize_beliefs_cons, List.length_replicate, List.length_replicate, w1, w2, t]
    norm_num
  · rw [gridSum_replicate]
    norm_num

/-- C2: for a colour grid and a belief grid of the same shape `H` x `W` and
weights whose weighted sum `S` is non-zero, `sense` returns a grid of the same
shape whose cell `(r, c)` is `beliefs[r][c] * w(r, c) / S`, where `w` is
`p_hit` on the cells of the observed colour and `p_miss` elsewhere. -/
theorem sense_normalized_likelihood (color : Char) (grid : ColorGrid) (beliefs : BeliefGrid)
    (p_hit p_miss : ℚ) (H W : Nat) (hg : HasShape grid H W) (hb : HasShape beliefs H W)
    (hS : weightedSum color grid beliefs p_hit p_miss H W ≠ 0) :
    ∃ out, sense color grid beliefs p_hit p_miss = .ok out ∧ HasShape out H W ∧
      ∀ r c, r < H → c < W →
        readCell out r c
          = some (cellAt beliefs r c * likelihood color grid p_hit p_miss r c
              / weightedSum color grid beliefs p_hit p_miss H W) := by
  refine ⟨_, sense_eq_ok color grid beliefs p_hit p_miss H W hg hb hS, hasShape_gridOf .., ?_⟩
  intro r c hr hc
  exact readCell_gridOf H W _ r c hr hc

/-- A green observation in a 2x3 world, with a sensor right three times out of four. -/
theorem sense_normalized_likelihood_witness :
    ∃ out, sense 'g' [['r', 'g', 'g'], ['g', 'r', 'r']]
        [[1/2, 1/4, 0], [0, 1/8, 1/8]] 3 1 = .ok out ∧ HasShape out 2 3 ∧
      ∀ r c, r < 2 → c < 3 →
        readCell out r c
          = some (cellAt [[1/2, 1/4, 0], [0, 1/8, 1/8]] r c
              * likelihood 'g' [['r', 'g', 'g'], ['g', 'r', 'r']] 3 1 r c
              / weightedSum 'g' [['r', 'g', 'g'], ['g', 'r', 'r']]
                  [[1/2, 1/4, 0], [0, 1/8, 1/8]] 3 1 2 3) :=
  sense_normalized_likelihood 'g' [['r', 'g', 'g'], ['g', 'r', 'r']]
    [[1/2, 1/4, 0], [0, 1/8, 1/8]] 3 1 2 3 ⟨rfl, by decide⟩ ⟨rfl, by simp⟩
    (by
      simp [weightedSum, Finset.sum_range_succ, cellAt, likelihood, readCell]
      norm_num)

/-- C3: in a world of 3 rows and 1 column the robot known to be in row 2 is
moved by `dy = 2147483647` without blur. The sum `row + dy` overflows for row
2, whose destination is computed as row 2: the shift stage returns the beliefs
unmoved and so does `move`, while `(2 + dy) mod 3 = 0`; row 0 of the result
holds 0 and not the belief of row 2. -/
theorem move_large_dy_misplaces :
    HasShape [[(0 : ℚ)], [0], [1]] 3 1 ∧ gridSum [[(0 : ℚ)], [0], [1]] = 1 ∧
    new_index ((2 : Nat) : Int) 2147483647 ((3 : Nat) : Int) = 2 ∧
    shiftStage 2147483647 0 ((3 : Nat) : Int) ((1 : Nat) : Int) [[0], [0], [1]]
      = .ok [[0], [0], [1]] ∧
    move 2147483647 0 [[0], [0], [1]] 0 = .ok [[0], [0], [1]] ∧
    (((2 : Nat) : Int) + 2147483647) % ((3 : Nat) : Int) = 0 ∧
    readCell [[(0 : ℚ)], [0], [1]] 0 0 ≠ some (cellAt [[(0 : ℚ)], [0], [1]] 2 0) := by
  refine ⟨⟨rfl, by simp⟩, by simp [gridSum], by decide, by decide!, by decide!, by decide,
    by simp [readCell, cellAt]⟩

/-- C4 (as amended): for a colour grid and a belief grid of the same shape and
weights whose weighted sum is non-zero, the entries of the result of `sense`
sum to 1. -/
theorem sense_sums_to_one (color : Char) (grid : ColorGrid) (beliefs : BeliefGrid)
    (p_hit p_miss : ℚ) (H W : Nat) (hg : HasShape grid H W) (hb : HasShape beliefs H W)
    (hS : weightedSum color grid beliefs p_hit p_miss H W ≠ 0) :
    ∃ out, sense color grid beliefs p_hit p_miss = .ok out ∧ gridSum out = 1 := by
  refine ⟨_, sense_eq_ok color grid beliefs p_hit p_miss H W hg hb hS, ?_⟩
  rw [gridSum_div]
  exact div_self hS

/-- A red observation in a 2x2 world with a sensor that is sometimes wrong. -/
theorem sense_sums_to_one_witness :
    ∃ out, sense 'r' [['r', 'g'], ['g', 'r']] [[1/2, 1/2], [0, 0]] 2 1 = .ok out ∧
      gridSum out = 1 :=
  sense_sums_to_one 'r' [['r', 'g'], ['g', 'r']] [[1/2, 1/2], [0, 0]] 2 1 2 2
    ⟨rfl, by decide⟩ ⟨rfl, by simp⟩
    (by
      simp [weightedSum, Finset.sum_range_succ, cellAt, likelihood, readCell]
      norm_num)

/-- C4 fails as stated: in a world with one green cell, a robot that is sure
of its cell and observes red with `p_hit = 1`, `p_miss = 0` is a valid input,
and `sense` returns no grid, since the weighted sum is zero. -/
theorem sense_valid_input_degenerate :
    HasShape [['g']] 1 1 ∧ HasShape [[(1 : ℚ)]] 1 1 ∧ NonNeg [[(1 : ℚ)]] ∧
    gridSum [[(1 : ℚ)]] = 1 ∧ (0 : ℚ) ≤ 1 ∧ ¬ ((1 : ℚ) = 0 ∧ (0 : ℚ) = 0) ∧
    sense 'r' [['g']] [[1]] 1 0 = .error .degenerateDistribution := by
  refine ⟨⟨rfl, by decide⟩, ⟨rfl, by simp⟩, ?_, by simp [gridSum], by norm_num, by norm_num, ?_⟩
  · intro r hr x hx
    simp at hr; subst hr; simp at hx; subst hx; norm_num
  · apply sense_eq_error 'r' [['g']] [[1]] 1 0 1 1 ⟨rfl, by decide⟩ ⟨rfl, by simp⟩
    simp [weightedSum, cellAt, likelihood, readCell]

/-- C5: in a world of 3 rows and 1 column the robot known to be in row 1 is
moved by `dy = 2147483646` without blur. The sum `row + dy` overflows for row
2, so rows 1 and 2 both get the destination row 1; the zero of row 2
overwrites the belief of row 1, the shift stage returns a grid of zeros, and
`move` returns no grid of sum 1. -/
theorem move_large_dy_loses_mass :
    HasShape [[(0 : ℚ)], [1], [0]] 3 1 ∧ NonNeg [[(0 : ℚ)], [1], [0]] ∧
    gridSum [[(0 : ℚ)], [1], [0]] = 1 ∧
    shiftStage 2147483646 0 ((3 : Nat) : Int) ((1 : Nat) : Int) [[0], [1], [0]]
      = .ok [[0], [0], [0]] ∧
    gridSum [[(0 : ℚ)], [0], [0]] = 0 ∧
    move 2147483646 0 [[0], [1], [0]] 0 = .error .degenerateDistribution := by
  refine ⟨⟨rfl, by simp⟩, ?_, by simp [gridSum], by decide!, by simp [gridSum], by decide!⟩
  intro r hr x hx
  simp only [List.mem_cons, List.mem_singleton, List.not_mem_nil, or_false] at hr
  rcases hr with rfl | rfl | rfl <;> simp at hx <;> subst hx <;> norm_num

/-- C6: for a colour grid and a belief grid of the same shape and every
`k > 0`, `sense` with the weights `k * p_hit`, `k * p_miss` gives the same
outcome, cell for cell, as `sense` with `p_hit`, `p_miss`. -/
theorem sense_scale_invariant (color : Char) (grid : ColorGrid) (beliefs : BeliefGrid)
    (p_hit p_miss k : ℚ) (H W : Nat) (hg : HasShape grid H W) (hb : HasShape beliefs H W)
    (hk : 0 < k) :
    sense color grid beliefs (k * p_hit) (k * p_miss)
      = sense color grid beliefs p_hit p_miss := by
  have hk0 : k ≠ 0 := ne_of_gt hk
  by_cases hS : weightedSum color grid beliefs p_hit p_miss H W = 0
  · rw [sense_eq_error color grid beliefs p_hit p_miss H W hg hb hS,
      sense_eq_error color grid beliefs (k * p_hit) (k * p_miss) H W hg hb
        (by rw [weightedSum_scale, hS, mul_zero])]
  · have hS2 : weightedSum color grid beliefs (k * p_hit) (k * p_miss) H W ≠ 0 := by
      rw [weightedSum_scale]; exact mul_ne_zero hk0 hS
    rw [sense_eq_ok color grid beliefs p_hit p_miss H W hg hb hS,
      sense_eq_ok color grid beliefs (k * p_hit) (k * p_miss) H W hg hb hS2]
    congr 1
    apply gridOf_congr
    intro i _ j _
    rw [weightedSum_scale, likelihood_scale]
    field_simp
    ring

/-- Weights 6 and 2 against weights 3 and 1 in a 1x3 world; both runs return a grid. -/
theorem sense_scale_invariant_witness :
    sense 'g' [['g', 'r', 'g']] [[1/3, 1/3, 1/3]] (2 * 3) (2 * 1)
      = sense 'g' [['g', 'r', 'g']] [[1/3, 1/3, 1/3]] 3 1 :=
  sense_scale_invariant 'g' [['g', 'r', 'g']] [[1/3, 1/3, 1/3]] 3 1 2 1 3
    ⟨rfl, by decide⟩ ⟨rfl, by simp⟩ (by norm_num)

/-- C7: in a world of 3 rows and 1 column `dy = 2147483644` moves the robot
from row 0 to row 1. With `dy + 1 * 3 = 2147483647` the sum `row + dy`
overflows for rows 1 and 2, the zero of row 1 overwrites the belief moved to
row 1, the shift stage returns a grid of zeros and `move` returns no grid: the
two displacements, equal modulo the height, give different outcomes. -/
theorem move_large_dy_not_periodic :
    shiftStage 2147483644 0 ((3 : Nat) : Int) ((1 : Nat) : Int) [[1], [0], [0]]
      = .ok [[0], [1], [0]] ∧
    shiftStage (2147483644 + 1 * ((3 : Nat) : Int)) 0 ((3 : Nat) : Int) ((1 : Nat) : Int)
        [[1], [0], [0]]
      = .ok [[0], [0], [0]] ∧
    move 2147483644 0 [[1], [0], [0]] 0 = .ok [[0], [1], [0]] ∧
    move (2147483644 + 1 * ((3 : Nat) : Int)) 0 [[1], [0], [0]] 0
      = .error .degenerateDistribution ∧
    move (2147483644 + 1 * ((3 : Nat) : Int)) 0 [[1], [0], [0]] 0
      ≠ move 2147483644 0 [[1], [0], [0]] 0 := by
  refine ⟨by decide!, by decide!, by decide!, by decide!, by decide!⟩

/-- C8 (as amended): with `p_hit > 0` and `p_miss = 0`, if exactly one cell
`(r0, c0)` carries the observed colour, its belief is positive and the `float`
product of that belief and `p_hit` (line 113) is finite and not zero, `sense`
returns the grid with 1 at `(r0, c0)` and 0 everywhere else. -/
theorem senseFloat_perfect_sensor (color : Char) (grid : ColorGrid) (beliefs : BeliefGrid)
    (p_hit v : ℚ) (H W r0 c0 : Nat) (hg : HasShape grid H W) (hb : HasShape beliefs H W)
    (hr0 : r0 < H) (hc0 : c0 < W) (hcol : readCell grid r0 c0 = some color)
    (huniq : ∀ i j, i < H → j < W → readCell grid i j = some color → i = r0 ∧ j = c0)
    (_hpos : 0 < cellAt beliefs r0 c0) (_hp : 0 < p_hit)
    (hv : toFloat (cellAt beliefs r0 c0 * p_hit) = some v) (hv0 : v ≠ 0) :
    senseFloat color grid beliefs p_hit 0
      = .ok (gridOf H W fun i j => if i = r0 ∧ j = c0 then 1 else 0) := by
  have hf : ∀ i j, i < H → j < W →
      toFloat (cellAt beliefs i j * likelihood color grid p_hit 0 i j)
        = some (if i = r0 ∧ j = c0 then v else 0) := by
    intro i j hi hj
    by_cases h : i = r0 ∧ j = c0
    · obtain ⟨rfl, rfl⟩ := h
      have hl : likelihood color grid p_hit 0 i j = p_hit := by simp [likelihood, hcol]
      rw [hl, hv]
      simp
    · have hl : likelihood color grid p_hit 0 i j = 0 := by
        have : readCell grid i j ≠ some color := fun e => h (huniq i j hi hj e)
        simp [likelihood, this]
      rw [hl, if_neg h, mul_zero, toFloat_zero]
  rw [senseFloat_eq color grid beliefs p_hit 0 H W _ hg hb hf, normalize_gridOf,
    sum_single_cell H W r0 c0 v hr0 hc0, if_neg hv0]
  congr 1
  apply gridOf_congr
  intro i _ j _
  by_cases h : i = r0 ∧ j = c0
  · rw [if_pos h, if_pos h]
    exact div_self hv0
  · rw [if_neg h, if_neg h]
    simp

/-- The hit-or-miss example of the spec: a 2x2 world with one red cell,
uniform beliefs, a red observation and a perfect sensor. -/
theorem senseFloat_perfect_sensor_witness :
    senseFloat 'r' [['r', 'g'], ['g', 'g']] [[1/4, 1/4], [1/4, 1/4]] 1 0
      = .ok (gridOf 2 2 fun i j => if i = 0 ∧ j = 0 then 1 else 0) :=
  senseFloat_perfect_sensor 'r' [['r', 'g'], ['g', 'g']] [[1/4, 1/4], [1/4, 1/4]] 1 (1/4)
    2 2 0 0 ⟨rfl, by decide⟩ ⟨rfl, by simp⟩ (by decide) (by decide) rfl
    (by
      intro i j hi hj
      interval_cases i <;> interval_cases j <;> simp [readCell])
    (by simp [cellAt]) (by norm_num)
    (by
      have e : cellAt [[1/4, 1/4], [1/4, 1/4]] 0 0 * 1 = 1 / 4 := by simp [cellAt]
      rw [e]
      exact toFloat_quarter)
    (by norm_num)

/-- C8 fails as stated: in a world of one red and one green cell with beliefs
1/4 and 3/4, a red observation and `p_hit = 2^-149`, the smallest positive
`float`, the product of line 113 is `2^-151`, which a `float` holds as 0; the
grid handed to `normalize` is all zeros and `sense` returns no one-hot grid. -/
theorem sense_perfect_sensor_underflow :
    HasShape [['r', 'g']] 1 2 ∧ HasShape [[(1 : ℚ)/4, 3/4]] 1 2 ∧
    readCell [['r', 'g']] 0 0 = some 'r' ∧ readCell [['r', 'g']] 0 1 ≠ some 'r' ∧
    0 < cellAt [[(1 : ℚ)/4, 3/4]] 0 0 ∧ (0 : ℚ) < 1 / 2 ^ 149 ∧
    toFloat (1 / 2 ^ 149) = some (1 / 2 ^ 149) ∧
    toFloat (1 / 4 * (1 / 2 ^ 149)) = some 0 ∧
    weighFloat 'r' [['r', 'g']] [[1/4, 3/4]] (1 / 2 ^ 149) 0 = .ok [[0, 0]] ∧
    senseFloat 'r' [['r', 'g']] [[1/4, 3/4]] (1 / 2 ^ 149) 0
      = .error .degenerateDistribution := by
  have hg : HasShape [['r', 'g']] 1 2 := ⟨rfl, by decide⟩
  have hb : HasShape [[(1 : ℚ)/4, 3/4]] 1 2 := ⟨rfl, by simp⟩
  have hf : ∀ i j, i < 1 → j < 2 →
      toFloat (cellAt [[(1 : ℚ)/4, 3/4]] i j
          * likelihood 'r' [['r', 'g']] (1 / 2 ^ 149) 0 i j)
        = some ((fun _ _ => (0 : ℚ)) i j) := by
    intro i j hi hj
    interval_cases i
    interval_cases j
    · have e : cellAt [[(1 : ℚ)/4, 3/4]] 0 0 * likelihood 'r' [['r', 'g']] (1 / 2 ^ 149) 0 0 0
          = 1 / 4 * (1 / 2 ^ 149) := by simp [cellAt, likelihood, readCell]
      rw [e]
      exact toFloat_underflow
    · have e : cellAt [[(1 : ℚ)/4, 3/4]] 0 1 * likelihood 'r' [['r', 'g']] (1 / 2 ^ 149) 0 0 1
          = 0 := by simp [cellAt, likelihood, readCell]
      rw [e]
      exact toFloat_zero
  have hw := weighFloat_eq 'r' [['r', 'g']] [[1/4, 3/4]] (1 / 2 ^ 149) 0 1 2 _ hg hb hf
  have hgrid : gridOf 1 2 (fun _ _ => (0 : ℚ)) = [[0, 0]] := by decide!
  rw [hgrid] at hw
  have hs : senseFloat 'r' [['r', 'g']] [[1/4, 3/4]] (1 / 2 ^ 149) 0
      = .error .degenerateDistribution := by
    rw [senseFloat_of_weighFloat _ _ _ _ _ _ hw]
    simp [normalize, gridSum]
  exact ⟨hg, hb, rfl, by simp [readCell], by simp [cellAt], by positivity, toFloat_smallest,
    toFloat_underflow, hw, hs⟩

/-- C9: on a 65536 x 32769 world the product `height * width` is 2147549184,
which the `int` `area` holds as -2147418112, so every cell that
`initialize_beliefs` returns is `1 / -2147418112`, a negative belief. -/
theorem initialize_beliefs_negative_cells :
    wrapInt (65536 * 32769) = -2147418112 ∧
    initialize_beliefs (List.replicate 65536 (List.replicate 32769 'g'))
      = .ok (List.replicate 65536 (List.replicate 32769 (-1 / 2147418112))) ∧
    ¬ NonNeg (List.replicate 65536 (List.replicate 32769 (-1 / 2147418112))) := by
  have hcons : List.replicate 65536 (List.replicate 32769 'g')
      = List.replicate 32769 'g' :: List.replicate 65535 (List.replicate 32769 'g') :=
    List.replicate_succ ..
  have w1 : wrapInt ((65535 + 1 : Nat) : Int) = 65536 := by decide
  have w2 : wrapInt ((32769 : Nat) : Int) = 32769 := by decide
  have w3 : wrapInt (65536 * 32769) = -2147418112 := by decide
  have t1 : Int.toNat 65536 = 65536 := by decide
  have t2 : Int.toNat 32769 = 32769 := by decide
  refine ⟨w3, ?_, ?_⟩
  · rw [hcons, initialize_beliefs_cons, List.length_replicate, List.length_replicate, w1, w2,
      w3, t1, t2]
    norm_num
  · intro h
    have hx := h (List.replicate 32769 (-1 / 2147418112))
      (List.mem_replicate.mpr ⟨by decide, rfl⟩) (-1 / 2147418112)
      (List.mem_replicate.mpr ⟨by decide, rfl⟩)
    norm_num at hx

/-- C11 (as amended): `initialize_beliefs` has no check of the dimensions. On
a world of `H ≥ 1` rows of width 0 (`H < 2^31`) it returns the grid of `H`
empty rows; on a world with no rows the read of `grid[0]` is out of bounds. -/
theorem initialize_beliefs_accepts_empty (grid : ColorGrid) (H : Nat)
    (hs : HasShape grid H 0) (hfit : H < 2147483648) :
    (H = 0 → initialize_beliefs grid = .error .outOfRange) ∧
      (1 ≤ H → initialize_beliefs grid = .ok (List.replicate H [])) := by
  constructor
  · intro h0
    have hl := hs.1
    rw [h0] at hl
    rw [List.length_eq_zero.mp hl]
    rfl
  · intro hH
    exact initialize_beliefs_no_columns grid H hH hs hfit

/-- A world of two rows without columns. -/
theorem initialize_beliefs_accepts_empty_witness :
    initialize_beliefs [[], []] = .ok (List.replicate 2 []) :=
  (initialize_beliefs_accepts_empty [[], []] 2 ⟨rfl, by decide⟩ (by decide)).2 (by decide)

/-- C11 fails as stated: the world of one row without columns has area
`1 * 0 = 0`, and `initialize_beliefs` returns a grid, the one empty row. -/
theorem initialize_beliefs_empty_row_returns :
    HasShape ([[]] : ColorGrid) 1 0 ∧ 1 * 0 = 0 ∧ initialize_beliefs [[]] = .ok [[]] := by
  refine ⟨⟨rfl, by decide⟩, rfl, by decide!⟩

/-- C13 (as amended): `move` has no check of the blurring coefficient. For a
belief grid with `H ≥ 1` rows and `W ≥ 1` columns and non-zero sum, a
displacement without `int` overflow and a coefficient below 0 or above 1,
`move` returns a grid of the same shape whose entries sum to 1. -/
theorem move_accepts_any_blurring (dy dx : Int) (beliefs : BeliefGrid) (blurring : ℚ)
    (H W : Nat) (hH : 1 ≤ H) (hW : 1 ≤ W) (hb : HasShape beliefs H W)
    (hsum : gridSum beliefs ≠ 0) (fy : ShiftFits dy H) (fx : ShiftFits dx W)
    (_hbad : blurring < 0 ∨ 1 < blurring) :
    ∃ out, move dy dx beliefs blurring = .ok out ∧ HasShape out H W ∧ gridSum out = 1 := by
  obtain ⟨out, h1, h2, h3⟩ := move_ok_sum dy dx beliefs blurring H W hH hW hb hsum fy fx
  exact ⟨out, h1, h3, h2⟩

/-- A move one row down in a 2x2 world with blurring three halves. -/
theorem move_accepts_any_blurring_witness :
    ∃ out, move 1 0 [[1/2, 1/2], [0, 0]] (3/2) = .ok out ∧ HasShape out 2 2 ∧
      gridSum out = 1 :=
  move_accepts_any_blurring 1 0 [[1/2, 1/2], [0, 0]] (3/2) 2 2 (by decide) (by decide)
    ⟨rfl, by simp⟩ (by simp [gridSum]) (by unfold ShiftFits; decide)
    (by unfold ShiftFits; decide) (Or.inr (by norm_num))

/-- C13 fails as stated: with blurring `-1` in a 1x2 world `move` returns a
grid, and one of its cells is negative. -/
theorem move_negative_blurring_returns :
    (-1 : ℚ) < 0 ∧ move 0 0 [[1, 0]] (-1) = .ok [[3/2, -1/2]] := by
  refine ⟨by norm_num, by decide!⟩

/-- C14: with `H = 3` and `dy = 2147483646` the sum `row + dy` overflows for
row 2; the rows 1 and 2 get the same destination row 1, no row gets the
destination 2, and in the shift stage the zero of row 2 overwrites the belief
of row 1: the map is not a bijection of the rows. -/
theorem shift_large_dy_collides :
    new_index ((1 : Nat) : Int) 2147483646 ((3 : Nat) : Int) = 1 ∧
    new_index ((2 : Nat) : Int) 2147483646 ((3 : Nat) : Int) = 1 ∧
    (∀ r : Nat, r < 3 → new_index (r : Int) 2147483646 ((3 : Nat) : Int) ≠ 2) ∧
    shiftStage 2147483646 0 ((3 : Nat) : Int) ((1 : Nat) : Int) [[0], [1], [0]]
      = .ok [[0], [0], [0]] := by
  refine ⟨by decide, by decide, ?_, by decide!⟩
  intro r hr
  interval_cases r <;> decide

/-- C15: for `H = 3`, `row = 2` and `dy = 2147483647`, the largest `int`, the
addition `row + dy` wraps and the value of
`((row + dy) % height + height) % height` is 2, while
`(2 + 2147483647) mod 3 = 0`. -/
theorem new_index_wraps :
    (2 : Nat) < 3 ∧ (-2147483648 : Int) ≤ 2147483647 ∧ (2147483647 : Int) < 2147483648 ∧
    new_index ((2 : Nat) : Int) 2147483647 ((3 : Nat) : Int) = 2 ∧
    (((2 : Nat) : Int) + 2147483647) % ((3 : Nat) : Int) = 0 := by
  decide

/-- C16 (as amended): in exact arithmetic, for a colour grid and a belief grid
of the same shape `H` x `W` and weights with non-zero weighted sum, `sense`
returns a grid `out` of that shape, and for every cell `a` of the observed
colour and every cell `b` of another colour the cells `out[a]` and `out[b]`
satisfy `out[a] * beliefs[b] * p_miss = out[b] * beliefs[a] * p_hit`. -/
theorem sense_relative_odds (color : Char) (grid : ColorGrid) (beliefs : BeliefGrid)
    (p_hit p_miss : ℚ) (H W ra ca rb cb : Nat) (hg : HasShape grid H W)
    (hb : HasShape beliefs H W)
    (hS : weightedSum color grid beliefs p_hit p_miss H W ≠ 0)
    (hra : ra < H) (hca : ca < W) (hrb : rb < H) (hcb : cb < W)
    (hhit : readCell grid ra ca = some color) (hmiss : readCell grid rb cb ≠ some color) :
    ∃ out oa ob, sense color grid beliefs p_hit p_miss = .ok out ∧ HasShape out H W ∧
      readCell out ra ca = some oa ∧ readCell out rb cb = some ob ∧
      oa * cellAt beliefs rb cb * p_miss = ob * cellAt beliefs ra ca * p_hit := by
  refine ⟨_, _, _, sense_eq_ok color grid beliefs p_hit p_miss H W hg hb hS,
    hasShape_gridOf .., readCell_gridOf H W _ ra ca hra hca,
    readCell_gridOf H W _ rb cb hrb hcb, ?_⟩
  have ea : likelihood color grid p_hit p_miss ra ca = p_hit := by simp [likelihood, hhit]
  have eb : likelihood color grid p_hit p_miss rb cb = p_miss := by simp [likelihood, hmiss]
  rw [ea, eb]
  ring

/-- A red observation in a 2x2 world with weights 3 and 1: the red cell
`(0, 0)` against the green cell `(1, 1)`. -/
theorem sense_relative_odds_witness :
    ∃ out oa ob, sense 'r' [['r', 'g'], ['g', 'g']] [[1/8, 1/8], [1/4, 1/2]] 3 1 = .ok out ∧
      HasShape out 2 2 ∧ readCell out 0 0 = some oa ∧ readCell out 1 1 = some ob ∧
      oa * cellAt [[1/8, 1/8], [1/4, 1/2]] 1 1 * 1
        = ob * cellAt [[1/8, 1/8], [1/4, 1/2]] 0 0 * 3 :=
  sense_relative_odds 'r' [['r', 'g'], ['g', 'g']] [[1/8, 1/8], [1/4, 1/2]] 3 1 2 2 0 0 1 1
    ⟨rfl, by decide⟩ ⟨rfl, by simp⟩
    (by
      simp [weightedSum, Finset.sum_range_succ, cellAt, likelihood, readCell]
      norm_num)
    (by decide) (by decide) (by decide) (by decide) rfl (by simp [readCell])

/-- C16 fails as stated: in a world of one red and one green cell with beliefs
1/4 and 3/4, a red observation, `p_hit = 2^-149`, the smallest positive
`float`, and `p_miss = 1`, the product of line 113 is `2^-151`, which a
`float` holds as 0, and the product of line 117 is 3/4; `sense` returns
`[[0, 1]]`, and `0 * (3/4) * 1` is not `1 * (1/4) * 2^-149`. -/
theorem sense_relative_odds_underflow :
    HasShape [['r', 'g']] 1 2 ∧ HasShape [[(1 : ℚ)/4, 3/4]] 1 2 ∧
    NonNeg [[(1 : ℚ)/4, 3/4]] ∧ gridSum [[(1 : ℚ)/4, 3/4]] = 1 ∧
    (0 : ℚ) < 1 / 2 ^ 149 ∧ toFloat (1 / 2 ^ 149) = some (1 / 2 ^ 149) ∧
    weightedSum 'r' [['r', 'g']] [[1/4, 3/4]] (1 / 2 ^ 149) 1 1 2 ≠ 0 ∧
    readCell [['r', 'g']] 0 0 = some 'r' ∧ readCell [['r', 'g']] 0 1 ≠ some 'r' ∧
    weighFloat 'r' [['r', 'g']] [[1/4, 3/4]] (1 / 2 ^ 149) 1 = .ok [[0, 3/4]] ∧
    senseFloat 'r' [['r', 'g']] [[1/4, 3/4]] (1 / 2 ^ 149) 1 = .ok [[0, 1]] ∧
    cellAt [[0, 1]] 0 0 * cellAt [[1/4, 3/4]] 0 1 * 1
      ≠ cellAt [[0, 1]] 0 1 * cellAt [[1/4, 3/4]] 0 0 * (1 / 2 ^ 149) := by
  have hg : HasShape [['r', 'g']] 1 2 := ⟨rfl, by decide⟩
  have hb : HasShape [[(1 : ℚ)/4, 3/4]] 1 2 := ⟨rfl, by simp⟩
  have hn : NonNeg [[(1 : ℚ)/4, 3/4]] := by
    intro r hr x hx
    simp only [List.mem_singleton] at hr
    subst hr
    simp only [List.mem_cons, List.mem_singleton, List.not_mem_nil, or_false] at hx
    rcases hx with rfl | rfl <;> norm_num
  have hf : ∀ i j, i < 1 → j < 2 →
      toFloat (cellAt [[(1 : ℚ)/4, 3/4]] i j
          * likelihood 'r' [['r', 'g']] (1 / 2 ^ 149) 1 i j)
        = some ((fun _ j => if j = 0 then (0 : ℚ) else 3 / 4) i j) := by
    intro i j hi hj
    interval_cases i
    interval_cases j
    · have e : cellAt [[(1 : ℚ)/4, 3/4]] 0 0 * likelihood 'r' [['r', 'g']] (1 / 2 ^ 149) 1 0 0
          = 1 / 4 * (1 / 2 ^ 149) := by simp [cellAt, likelihood, readCell]
      rw [e]
      exact toFloat_underflow
    · have e : cellAt [[(1 : ℚ)/4, 3/4]] 0 1 * likelihood 'r' [['r', 'g']] (1 / 2 ^ 149) 1 0 1
          = 3 / 4 := by simp [cellAt, likelihood, readCell]
      rw [e]
      exact toFloat_three_quarters
  have hw := weighFloat_eq 'r' [['r', 'g']] [[1/4, 3/4]] (1 / 2 ^ 149) 1 1 2 _ hg hb hf
  have hgrid : gridOf 1 2 (fun _ j => if j = 0 then (0 : ℚ) else 3 / 4) = [[0, 3/4]] := by
    decide!
  rw [hgrid] at hw
  have hs : senseFloat 'r' [['r', 'g']] [[1/4, 3/4]] (1 / 2 ^ 149) 1 = .ok [[0, 1]] := by
    rw [senseFloat_of_weighFloat _ _ _ _ _ _ hw]
    simp [normalize, gridSum]
  refine ⟨hg, hb, hn, by simp [gridSum]; norm_num, by positivity, toFloat_smallest, ?_, rfl,
    by simp [readCell], hw, hs, ?_⟩
  · simp [weightedSum, Finset.sum_range_succ, cellAt, likelihood, readCell]
    positivity
  · simp [cellAt]

/-- C17: the beliefs `[[1/2], [1/4], [1/4]]` sum to 1; with `dy = 2147483646`
the sum `row + dy` overflows for row 2, the shift stage hands
`[[1/2], [1/4], [0]]`, of sum 3/4, to Blur, the blur formula with coefficient
one half gives a grid of sum 3/4, and the Normalize step inside Blur changes
every cell. -/
theorem blur_normalize_changes_after_overflow :
    gridSum [[(1 : ℚ)/2], [1/4], [1/4]] = 1 ∧
    shiftStage 2147483646 0 ((3 : Nat) : Int) ((1 : Nat) : Int) [[1/2], [1/4], [1/4]]
      = .ok [[1/2], [1/4], [0]] ∧
    gridSum [[(1 : ℚ)/2], [1/4], [0]] = 3 / 4 ∧
    gridOf 3 1 (blurCell [[1/2], [1/4], [0]] (1/2) 3 1) = [[13/32], [1/4], [3/32]] ∧
    move 2147483646 0 [[1/2], [1/4], [1/4]] (1/2) = .ok [[13/24], [1/3], [1/8]] := by
  refine ⟨by simp [gridSum]; norm_num, by decide!, by simp [gridSum]; norm_num, by decide!,
    by decide!⟩

/-- C18: on a grid of one row of `2^30 + 1` cells, all equal to 1, the width
fits an `int` and Normalize returns a grid with `1 / (2^30 + 1)` in every
cell. In `move 0 0` the sum `col % width + width` is `2^31` at column
`2^30 - 1`, which an `int` holds as a negative number: the destination columns
of the last two cells are negative, and no cell is written to the columns
`2^30 - 1` and `2^30`, which keep their initial zero. -/
theorem new_index_wide_grid_negative :
    HasShape (List.replicate 1 (List.replicate 1073741825 (1 : ℚ))) 1 1073741825 ∧
    gridSum (List.replicate 1 (List.replicate 1073741825 (1 : ℚ))) ≠ 0 ∧
    wrapInt ((1073741825 : Nat) : Int) = 1073741825 ∧
    new_index ((1073741823 : Nat) : Int) 0 1073741825 = -1073741823 ∧
    new_index ((1073741824 : Nat) : Int) 0 1073741825 = -1073741822 ∧
    (∀ col : Nat, col < 1073741825 →
      new_index (col : Int) 0 1073741825 ≠ 1073741823 ∧
        new_index (col : Int) 0 1073741825 ≠ 1073741824) ∧
    (∃ out, normalize (List.replicate 1 (List.replicate 1073741825 (1 : ℚ))) = .ok out ∧
      readCell out 0 1073741823 = some (1 / 1073741825)) := by
  have hshape :
      HasShape (List.replicate 1 (List.replicate 1073741825 (1 : ℚ))) 1 1073741825 := by
    refine ⟨List.length_replicate .., ?_⟩
    intro r hr
    rw [List.eq_of_mem_replicate hr]
    exact List.length_replicate ..
  have hsum : gridSum (List.replicate 1 (List.replicate 1073741825 (1 : ℚ))) ≠ 0 := by
    rw [gridSum_replicate]
    norm_num
  refine ⟨hshape, hsum, by decide, by decide, by decide, ?_, ?_⟩
  · intro col hcol
    by_cases h : col < 1073741823
    · have e : new_index (col : Int) 0 1073741825 = col :=
        new_index_zero_of_small col 1073741825 hcol (by omega)
      rw [e]
      constructor <;> omega
    · have h2 : col = 1073741823 ∨ col = 1073741824 := by omega
      rcases h2 with rfl | rfl <;> decide
  · refine ⟨_, normalize_replicate 1 1073741825 1 (by norm_num), ?_⟩
    rw [readCell_replicate 1 1073741825 0 1073741823 _ (by decide) (by decide)]
    norm_num

/-- C19: in a world of 3 rows and 1 column the robot known to be in row 2 is
moved by `dy1 = 2147483647` and then by `dy2 = -2147483647`. In the first move
`row + dy` overflows and the robot stays in row 2, the second move takes it to
row 1, while the move by `dy1 + dy2 = 0` leaves it in row 2: the second move
does not undo the first. -/
theorem move_large_dy_not_undone :
    HasShape [[(0 : ℚ)], [0], [1]] 3 1 ∧ gridSum [[(0 : ℚ)], [0], [1]] = 1 ∧
    shiftStage 2147483647 0 ((3 : Nat) : Int) ((1 : Nat) : Int) [[0], [0], [1]]
      = .ok [[0], [0], [1]] ∧
    shiftStage (-2147483647) 0 ((3 : Nat) : Int) ((1 : Nat) : Int) [[0], [0], [1]]
      = .ok [[0], [1], [0]] ∧
    (move 2147483647 0 [[0], [0], [1]] 0).bind (fun g => move (-2147483647) 0 g 0)
      = .ok [[0], [1], [0]] ∧
    move (2147483647 + -2147483647) (0 + 0) [[0], [0], [1]] 0 = .ok [[0], [0], [1]] := by
  refine ⟨⟨rfl, by simp⟩, by simp [gridSum], by decide!, by decide!, by decide!, by decide!⟩

/-- C20: for a colour grid, a belief grid of the same shape with non-negative
entries and non-zero sum, colours `c1`, `c2` and strictly positive weights,
sensing `c2` and then `c1` gives the same grid, cell for cell, as sensing `c1`
and then `c2`; both orders return a grid. -/
theorem sense_updates_commute (c1 c2 : Char) (grid : ColorGrid) (b : BeliefGrid)
    (h1 m1 h2 m2 : ℚ) (H W : Nat) (hg : HasShape grid H W) (hb : HasShape b H W)
    (hn : NonNeg b) (hsum : gridSum b ≠ 0)
    (p1 : 0 < h1) (q1 : 0 < m1) (p2 : 0 < h2) (q2 : 0 < m2) :
    (sense c2 grid b h2 m2).bind (fun b2 => sense c1 grid b2 h1 m1)
        = (sense c1 grid b h1 m1).bind (fun b1 => sense c2 grid b1 h2 m2) ∧
      ∃ out, (sense c2 grid b h2 m2).bind (fun b2 => sense c1 grid b2 h1 m1) = .ok out := by
  have e12 := sense_twice c1 c2 grid b h1 m1 h2 m2 H W hg hb hn hsum p1 q1 p2 q2
  have e21 := sense_twice c2 c1 grid b h2 m2 h1 m1 H W hg hb hn hsum p2 q2 p1 q1
  refine ⟨?_, _, e12⟩
  rw [e12, e21]
  have hmul : ∀ i j, likelihood c1 grid h1 m1 i j * likelihood c2 grid h2 m2 i j
      = likelihood c2 grid h2 m2 i j * likelihood c1 grid h1 m1 i j := fun i j => mul_comm _ _
  simp only [hmul]

/-- A red observation (weights 3, 1) and a green observation (weights 2, 1)
in a 1x3 world, in both orders. -/
theorem sense_updates_commute_witness :
    (sense 'g' [['r', 'g', 'b']] [[1/2, 1/4, 1/4]] 2 1).bind
          (fun b2 => sense 'r' [['r', 'g', 'b']] b2 3 1)
        = (sense 'r' [['r', 'g', 'b']] [[1/2, 1/4, 1/4]] 3 1).bind
          (fun b1 => sense 'g' [['r', 'g', 'b']] b1 2 1) ∧
      ∃ out, (sense 'g' [['r', 'g', 'b']] [[1/2, 1/4, 1/4]] 2 1).bind
          (fun b2 => sense 'r' [['r', 'g', 'b']] b2 3 1) = .ok out :=
  sense_updates_commute 'r' 'g' [['r', 'g', 'b']] [[1/2, 1/4, 1/4]] 3 1 2 1 1 3
    ⟨rfl, by decide⟩ ⟨rfl, by simp⟩
    (by
      intro r hr x hx
      simp only [List.mem_singleton] at hr
      subst hr
      simp only [List.mem_cons, List.mem_singleton, List.not_mem_nil, or_false] at hx
      rcases hx with rfl | rfl | rfl <;> norm_num)
    (by simp [gridSum]; norm_num) (by norm_num) (by norm_num) (by norm_num) (by norm_num)

end Localizer
